import Mathlib

/-!
Verification of the rez release pipeline (`rez_release.py`) and its git
release-VCS plugin (`git.py`).

The Python sources are embedded shallowly: pure string/list manipulation
becomes Lean functions on `String`/`List`, fallible code returns
`Except`, and side effects (filesystem writes, VCS commands, the external
build tool) are represented by explicit event traces and success oracles.
The `versions` module (class `versions.Version`) is not part of the two
source files, so it is modelled from the specification; everything else is
translated directly from the Python source.
-/

namespace Rez

/-- Errors raised by `rez_release.py`.  `releaseError` embeds
`RezReleaseError`; the remaining constructors embed Python runtime errors
(`AttributeError`, `IndexError`, `versions.VersionError`). -/
inductive RErr where
  | releaseError (msg : String)
  | attributeError
  | indexError
  | versionError
  | valueError
  deriving DecidableEq, Repr

/-! ### Generic lexicographic comparison

Helper used by the `Version` model: a three-way comparison on lists that
is lexicographic in the element comparison, together with the lemmas
needed to reason about maxima. -/

/-- Lexicographic comparison of lists given a comparison of elements. -/
def lexCmp (c : α → α → Ordering) : List α → List α → Ordering
  | [], [] => .eq
  | [], _ :: _ => .lt
  | _ :: _, [] => .gt
  | x :: xs, y :: ys =>
    match c x y with
    | .eq => lexCmp c xs ys
    | o => o

theorem lexCmp_refl (c : α → α → Ordering) (hc : ∀ a, c a a = .eq) :
    ∀ l : List α, lexCmp c l l = .eq := by
  intro l
  induction l with
  | nil => rfl
  | cons x xs ih => simp [lexCmp, hc x, ih]

theorem lexCmp_eq_iff (c : α → α → Ordering) (hc : ∀ a b, c a b = .eq ↔ a = b) :
    ∀ l m : List α, lexCmp c l m = .eq ↔ l = m := by
  intro l
  induction l with
  | nil => intro m; cases m <;> simp [lexCmp]
  | cons x xs ih =>
    intro m
    cases m with
    | nil => simp [lexCmp]
    | cons y ys =>
      simp only [lexCmp]
      rcases h : c x y with h' | h' | h'
      · simp only [List.cons.injEq]
        constructor
        · intro h2; simp at h2
        · rintro ⟨hxy, -⟩
          have he := (hc x y).2 hxy
          rw [h] at he; cases he
      · rw [(hc x y).1 h]
        simp [ih ys]
      · simp only [List.cons.injEq]
        constructor
        · intro h2; simp at h2
        · rintro ⟨hxy, -⟩
          have he := (hc x y).2 hxy
          rw [h] at he; cases he

theorem lexCmp_swap (c : α → α → Ordering)
    (hc : ∀ a b, c a b = (c b a).swap) :
    ∀ l m : List α, lexCmp c l m = (lexCmp c m l).swap := by
  intro l
  induction l with
  | nil => intro m; cases m <;> rfl
  | cons x xs ih =>
    intro m
    cases m with
    | nil => rfl
    | cons y ys =>
      simp only [lexCmp]
      rcases h : c y x with h' | h' | h'
      · rw [hc x y, h]; rfl
      · rw [hc x y, h]; simp [Ordering.swap]; exact ih ys
      · rw [hc x y, h]; rfl

theorem lexCmp_lt_trans (c : α → α → Ordering)
    (hceq : ∀ a b, c a b = .eq ↔ a = b)
    (hct : ∀ a b d, c a b = .lt → c b d = .lt → c a d = .lt) :
    ∀ l m n : List α, lexCmp c l m = .lt → lexCmp c m n = .lt →
      lexCmp c l n = .lt := by
  intro l
  induction l with
  | nil =>
    intro m n h1 h2
    cases m with
    | nil => exact h2
    | cons y ys => cases n with
      | nil => simp [lexCmp] at h2
      | cons z zs => rfl
  | cons x xs ih =>
    intro m n h1 h2
    cases m with
    | nil => simp [lexCmp] at h1
    | cons y ys =>
      cases n with
      | nil => simp [lexCmp] at h2
      | cons z zs =>
        simp only [lexCmp] at h1 h2 ⊢
        rcases hxy : c x y with h' | h' | h' <;> rw [hxy] at h1 <;>
            simp only [] at h1 <;>
          rcases hyz : c y z with h'' | h'' | h'' <;> rw [hyz] at h2 <;>
            simp only [] at h2
        · rw [hct x y z hxy hyz]
        · have := (hceq y z).1 hyz
          subst this
          rw [hxy]
        · cases h2
        · have := (hceq x y).1 hxy
          subst this
          rw [hyz]
        · have hxy' := (hceq x y).1 hxy
          have hyz' := (hceq y z).1 hyz
          subst hxy'
          subst hyz'
          rw [hxy]
          exact ih ys zs h1 h2
        · cases h2
        · cases h1
        · cases h1
        · cases h1

/-- Generic: in a linear order, `compare` is antisymmetric up to `swap`. -/
theorem linCmp_swap {α : Type _} [LinearOrder α] (a b : α) :
    compare a b = (compare b a).swap := by
  rcases lt_trichotomy a b with h | h | h
  · rw [compare_lt_iff_lt.2 h, compare_gt_iff_gt.2 h]
    rfl
  · subst h
    rw [compare_eq_iff_eq.2 rfl]
    rfl
  · rw [compare_gt_iff_gt.2 h, compare_lt_iff_lt.2 h]
    rfl

/-! ### The Version value type

The `versions` module imported by `rez_release.py` is not among the
source files.  Modelled from the spec: a `Version` is an ordered sequence
of numeric-or-string components parsed from a dotted string, totally
ordered by componentwise (lexicographic) comparison, with numeric
components compared numerically; the string `0` parses to the universal
minimum, and a legacy letter-prefixed tag such as `v1_0_0` parses as a
single string component whose rendering keeps the leading `v`. -/

/-- One component of a version: a number or an alphanumeric chunk. -/
inductive VComp where
  | num (n : Nat)
  | alpha (s : String)
  deriving DecidableEq, Repr

/-- Three-way comparison of components: numbers numerically, strings
lexicographically, numbers before strings. -/
def compCmp : VComp → VComp → Ordering
  | .num a, .num b => compare a b
  | .num _, .alpha _ => .lt
  | .alpha _, .num _ => .gt
  | .alpha a, .alpha b => lexCmp compare a.data b.data

theorem compCmp_eq_iff (a b : VComp) : compCmp a b = .eq ↔ a = b := by
  cases a <;> cases b <;> simp only [compCmp]
  · simp [compare_eq_iff_eq]
  · simp
  · simp
  · rw [lexCmp_eq_iff compare (fun x y => compare_eq_iff_eq)]
    constructor
    · intro h
      simp [String.ext h]
    · intro h
      simp at h
      rw [h]

theorem compCmp_swap (a b : VComp) : compCmp a b = (compCmp b a).swap := by
  cases a <;> cases b <;> simp only [compCmp] <;> try rfl
  · exact linCmp_swap _ _
  · exact lexCmp_swap compare (fun x y => linCmp_swap x y) _ _

theorem compCmp_lt_trans (a b d : VComp) (h1 : compCmp a b = .lt)
    (h2 : compCmp b d = .lt) : compCmp a d = .lt := by
  cases a <;> cases b <;> cases d
  case num.num.num =>
    simp only [compCmp] at h1 h2 ⊢
    rw [compare_lt_iff_lt] at h1 h2 ⊢
    exact lt_trans h1 h2
  case num.num.alpha => rfl
  case num.alpha.num => simp [compCmp] at h2
  case num.alpha.alpha => rfl
  case alpha.num.num => simp [compCmp] at h1
  case alpha.num.alpha => simp [compCmp] at h1
  case alpha.alpha.num => simp [compCmp] at h2
  case alpha.alpha.alpha =>
    simp only [compCmp] at h1 h2 ⊢
    exact lexCmp_lt_trans compare (fun u v => compare_eq_iff_eq)
      (fun u v w hu hv => by
        rw [compare_lt_iff_lt] at hu hv ⊢
        exact lt_trans hu hv) _ _ _ h1 h2

/-- A version value: the parsed component sequence. -/
abbrev Version := List VComp

/-- Three-way comparison of versions (componentwise lexicographic). -/
def vcmp (a b : Version) : Ordering := lexCmp compCmp a b

theorem vcmp_eq_iff (a b : Version) : vcmp a b = .eq ↔ a = b :=
  lexCmp_eq_iff compCmp compCmp_eq_iff a b

theorem vcmp_swap (a b : Version) : vcmp a b = (vcmp b a).swap :=
  lexCmp_swap compCmp compCmp_swap a b

theorem vcmp_lt_trans (a b d : Version) :
    vcmp a b = .lt → vcmp b d = .lt → vcmp a d = .lt :=
  lexCmp_lt_trans compCmp compCmp_eq_iff compCmp_lt_trans a b d

/-- Strict order on versions (`Version.__lt__` in the model). -/
def vlt (a b : Version) : Bool :=
  match vcmp a b with
  | .lt => true
  | _ => false

/-- Non-strict order on versions (`Version.__le__` in the model). -/
def vle (a b : Version) : Bool :=
  match vcmp a b with
  | .gt => false
  | _ => true

theorem vlt_iff (a b : Version) : vlt a b = true ↔ vcmp a b = .lt := by
  unfold vlt
  rcases h : vcmp a b <;> simp

theorem vle_iff (a b : Version) : vle a b = true ↔ vcmp a b ≠ .gt := by
  unfold vle
  rcases h : vcmp a b <;> simp

theorem vle_refl (a : Version) : vle a a = true := by
  rw [vle_iff, (vcmp_eq_iff a a).2 rfl]
  simp

theorem vlt_vle (a b : Version) (h : vlt a b = true) : vle a b = true := by
  rw [vlt_iff] at h
  rw [vle_iff, h]
  simp

theorem vlt_asymm (a b : Version) (h : vlt a b = true) : vle b a = false := by
  rw [vlt_iff] at h
  have := vcmp_swap b a
  rw [h] at this
  unfold vle
  rw [this]
  rfl

theorem vle_vlt_trans (a b d : Version) (h1 : vle a b = true)
    (h2 : vlt b d = true) : vlt a d = true := by
  rw [vle_iff] at h1
  rw [vlt_iff] at h2 ⊢
  rcases h : vcmp a b with h' | h' | h'
  · exact vcmp_lt_trans a b d h h2
  · rw [(vcmp_eq_iff a b).1 h]
    exact h2
  · exact absurd h h1

theorem vlt_vle_trans (a b d : Version) (h1 : vlt a b = true)
    (h2 : vle b d = true) : vlt a d = true := by
  rw [vle_iff] at h2
  rw [vlt_iff] at h1 ⊢
  rcases h : vcmp b d with h' | h' | h'
  · exact vcmp_lt_trans a b d h1 h
  · rw [← (vcmp_eq_iff b d).1 h]
    exact h1
  · exact absurd h h2

/-- Model of Python `str.split(sep)` for a one-character separator
(`acc` holds the current field reversed); splitting the empty string
yields one empty field, like Python. -/
def splitOnCharAux (sep : Char) : List Char → List Char → List (List Char)
  | [], acc => [acc.reverse]
  | c :: rest, acc =>
    if c = sep then acc.reverse :: splitOnCharAux sep rest []
    else splitOnCharAux sep rest (c :: acc)

/-- Model of Python `str.split(sep)` for a one-character separator. -/
def splitOnChar (sep : Char) (l : List Char) : List (List Char) :=
  splitOnCharAux sep l []

/-- Model of Python `str.strip()`: drop whitespace from both ends. -/
def pyStrip (s : String) : String :=
  ⟨((s.data.dropWhile Char.isWhitespace).reverse.dropWhile Char.isWhitespace).reverse⟩

/-- Model of Python `'\n'.join(lines)`. -/
def joinLines : List String → String
  | [] => ""
  | [s] => s
  | s :: rest => s ++ "\n" ++ joinLines rest

/-- Numeric value of a digit string (model of Python `int` on digits). -/
def digitsVal (l : List Char) : Nat :=
  l.foldl (fun acc c => acc * 10 + (c.toNat - 48)) 0

/-- Model of Python `int(s)` restricted to nonempty all-digit strings;
anything else raises `ValueError`, i.e. returns `none`. -/
def parseNatDigits (l : List Char) : Option Nat :=
  if l.isEmpty then none
  else if l.all Char.isDigit then some (digitsVal l)
  else none

/-- Characters allowed in a non-numeric version component. -/
def isCompChar (c : Char) : Bool := c.isAlphanum || c = '_'

/-- Modelled from the spec: parse one dotted component of a version
string: a nonempty digit run becomes a numeric component, a nonempty
alphanumeric-or-underscore run (for example the legacy `v1_0_0` form)
becomes a string component, anything else is a parse failure. -/
def parseVComp (s : String) : Option VComp :=
  if s.data.isEmpty then none
  else if s.data.all Char.isDigit then some (.num (digitsVal s.data))
  else if s.data.all isCompChar then some (.alpha s)
  else none

/-- Modelled from the spec: `versions.Version(s)` parses the dotted
string `s` into its component sequence, failing (raising `VersionError`)
if any component is malformed. -/
def parseVersion (s : String) : Option Version :=
  (splitOnChar '.' s.data).mapM (fun l => parseVComp ⟨l⟩)

/-- `versions.Version("0")`, the universal minimum used to seed the
latest-tag search. -/
def ver0 : Version := [.num 0]

/-- Decimal digits of a natural number, most significant first,
prepended to `acc`; the fuel argument (structural, at least one digit per
unit) keeps the recursion kernel-reducible. -/
def natCharsFuel : Nat → Nat → List Char → List Char
  | 0, _, acc => acc
  | fuel + 1, n, acc =>
    if n < 10 then Nat.digitChar n :: acc
    else natCharsFuel fuel (n / 10) (Nat.digitChar (n % 10) :: acc)

/-- Decimal rendering of a natural number. -/
def natRepr (n : Nat) : String := ⟨natCharsFuel (n + 1) n []⟩

theorem natCharsFuel_ne_nil_of_acc (fuel n : Nat) (acc : List Char)
    (h : acc ≠ []) : natCharsFuel fuel n acc ≠ [] := by
  induction fuel generalizing n acc with
  | zero => exact h
  | succ fuel ih =>
    rw [natCharsFuel]
    split
    · simp
    · exact ih (n / 10) _ (by simp)

theorem natRepr_ne_nil (n : Nat) : (natRepr n).data ≠ [] := by
  rw [natRepr]
  show natCharsFuel (n + 1) n [] ≠ []
  rw [natCharsFuel]
  split
  · simp
  · exact natCharsFuel_ne_nil_of_acc n (n / 10) _ (by simp)

/-- Rendering of one version component (`str` of the component). -/
def renderComp : VComp → String
  | .num n => natRepr n
  | .alpha s => s

/-- Joins rendered components with dots. -/
def joinDot : List String → String
  | [] => ""
  | [s] => s
  | s :: rest => s ++ "." ++ joinDot rest

/-- Modelled from the spec: `str` of a `Version` is its dotted form. -/
def vToString (v : Version) : String := joinDot (v.map renderComp)

/-- Wellformedness of one component: string components are nonempty. -/
def compWfB : VComp → Bool
  | .num _ => true
  | .alpha s => !s.data.isEmpty

/-- Wellformedness of a version value: nonempty, with nonempty string
components — every version produced by `parseVersion` has this shape. -/
def VWf (v : Version) : Prop :=
  v ≠ [] ∧ ∀ c ∈ v, compWfB c = true

instance : DecidablePred VWf := by
  intro v
  unfold VWf
  infer_instance

theorem vToString_ne_nil (v : Version) (h : VWf v) :
    (vToString v).data ≠ [] := by
  obtain ⟨hne, hcomp⟩ := h
  cases v with
  | nil => exact absurd rfl hne
  | cons c rest =>
    have hrc : (renderComp c).data ≠ [] := by
      rcases c with n | s
      · exact natRepr_ne_nil n
      · have := hcomp (.alpha s) (by simp)
        simp [compWfB] at this
        simpa [renderComp]
    cases rest with
    | nil => simpa [vToString, joinDot] using hrc
    | cons c2 r2 =>
      simp only [vToString, List.map, joinDot]
      intro hcontra
      rw [String.data_append, String.data_append] at hcontra
      simp at hcontra

/-! ### Backend registry (`rez_release.py`, module level)

`_release_classes` is a list of `(name, class)` pairs.  Constructing a
backend either succeeds, raises `RezReleaseUnsupportedMode`, or raises
some other exception; `list_available_release_modes` wraps each
construction attempt in a bare `try/except` clause. -/

/-- Outcome of constructing a release-mode backend on a path. -/
inductive ConstructErr where
  | unsupported (msg : String)
  | other (msg : String)
  deriving DecidableEq, Repr

/-- A release-mode class: constructing it on a path either succeeds or
raises. -/
def ModeFactory := String → Except ConstructErr Unit

/-- The `_release_classes` registry: `(name, class)` pairs, most recently
registered first. -/
def Registry := List (String × ModeFactory)

/-- Embedding of `list_release_modes`. -/
def list_release_modes (reg : Registry) : List String :=
  reg.map (fun p => p.1)

/-- Embedding of `register_release_mode`: asserts the name is new and
puts the new entry at the front of the registry. -/
def register_release_mode (reg : Registry) (name : String) (cls : ModeFactory) :
    Except String Registry :=
  if name ∈ list_release_modes reg then
    .error "Mode has already been registered"
  else
    .ok ((name, cls) :: reg)

/-- Embedding of `list_available_release_modes`: tries to construct every
registered class on the path; the bare `except: pass` clause silently
skips a class whose construction raises, whatever the exception is. -/
def list_available_release_modes (reg : Registry) (path : String) : List String :=
  reg.filterMap (fun p =>
    match p.2 path with
    | .ok _ => some p.1
    | .error _ => none)

/-- Whether a construction attempt succeeded. -/
def exOk : Except ConstructErr Unit → Bool
  | .ok _ => true
  | .error _ => false

/-- The probing behavior exactly as the claim states it: a construction
failure with the dedicated unsupported condition is silently filtered,
while any other construction failure propagates to the caller. -/
def list_available_release_modes_claim (reg : Registry) (path : String) :
    Except ConstructErr (List String) :=
  match reg with
  | [] => .ok []
  | (name, cls) :: rest =>
    match cls path with
    | .ok _ =>
      match list_available_release_modes_claim rest path with
      | .error e => .error e
      | .ok ms => .ok (name :: ms)
    | .error (.unsupported _) => list_available_release_modes_claim rest path
    | .error e => .error e

/-! ### `RezReleaseMode` helpers -/

/-- Embedding of `RezReleaseMode.check_uuid`: reading the central
`package.uuid` file either fails (`none`, the file does not exist or is
unreadable) or yields its contents; on a read failure the existing uuid
is taken to be the metadata uuid itself, so only a readable file whose
stripped contents differ from the metadata uuid raises.  Returns whether
the uuid file exists. -/
def check_uuid (fileContents : Option String) (metadataUuid : String) :
    Except RErr Bool :=
  let r : Bool × String :=
    match fileContents with
    | none => (false, metadataUuid)
    | some c => (true, pyStrip c)
  if r.2 ≠ metadataUuid then
    .error (.releaseError "the uuid in the package.uuid file does not match this package uuid - you may have a package name clash. All package names must be unique.")
  else
    .ok r.1

/-- Embedding of `RezReleaseMode.validate_version` (with the version
values passed explicitly: `self.allow_not_latest`,
`self.last_tagged_version`, `self.this_version`).  An empty string
rendering would make the Python subscript `last_tag_str[0]` raise
`IndexError`. -/
def validate_version (allow_not_latest : Bool) (last_tagged_version : Option Version)
    (this_version : Version) : Except RErr Unit :=
  if allow_not_latest then .ok ()
  else
    match last_tagged_version with
    | none => .ok ()
    | some ltv =>
      match (vToString ltv).data with
      | [] => .error .indexError
      | c :: _ =>
        if c = 'v' then .ok ()
        else if vle this_version ltv then
          .error (.releaseError ("cannot release: current version is not greater than the latest tag " ++ vToString ltv ++ ". Version up or pass --allow-not-latest."))
        else .ok ()

/-- The tag-scanning loop of `RezReleaseMode.get_last_tagged_version`:
`latest_ver` starts at the given seed, `found_tag` records whether any
parsable tag exceeded it. -/
def gltvGo : List String → Version → Bool → Option Version
  | [], latest, found => if found then some latest else none
  | t :: ts, latest, found =>
    match parseVersion t with
    | none => gltvGo ts latest found
    | some v => if vlt latest v then gltvGo ts v true else gltvGo ts latest found

/-- Embedding of `RezReleaseMode.get_last_tagged_version` on the tag list
returned by `get_tags`: seed `Version("0")`, no tag found yet. -/
def get_last_tagged_version (tags : List String) : Option Version :=
  gltvGo tags ver0 false

/-! ### The release pipeline (`RezReleaseMode.release` and its phases)

External effects — central-store writes, per-variant build and install
invocations, the notification email and tag creation — are recorded as an
event trace, and the outcomes of the external collaborators (metadata
loading, configuration, repository validation, the build tool, the VCS
tag operation) are supplied as oracles in the environment. -/

/-- Observable actions of one release run. -/
inductive REvent where
  | mkFamilyDir
  | writeUuidFile (contents : String)
  | buildVariant (i : Nat)
  | installVariant (i : Nat)
  | writeTimeMetafile
  | sendEmail
  | createTag
  deriving DecidableEq, Repr

/-- Environment of one release run: the central uuid marker state and
success oracles for every external step. -/
structure ReleaseEnv where
  /-- Contents of the central `package.uuid` file, `none` if it cannot be
  read (first release of the family). -/
  uuidFileContents : Option String
  /-- `self.metadata.uuid`. -/
  metadataUuid : String
  /-- Number of variants in the metadata (`metadata.get_variants()`). -/
  rawVariants : Nat
  /-- `get_metadata` succeeds (all required fields present). -/
  metadataOk : Bool
  /-- `$REZ_RELEASE_PACKAGES_PATH` is set. -/
  releaseDirSet : Bool
  /-- `validate_repostate` succeeds. -/
  repostateOk : Bool
  /-- `validate_version` succeeds. -/
  versionOk : Bool
  /-- The commit-message editor round trip succeeds. -/
  commitMsgOk : Bool
  /-- The build of variant `i` exits with status 0. -/
  buildOk : Nat → Bool
  /-- The install of variant `i` exits with status 0. -/
  installOk : Nat → Bool
  /-- `create_release_tag` succeeds. -/
  tagOk : Bool

/-- Effective variant count: an empty variant list is replaced by one
implicit variant (`self.variants = [None]`). -/
def nVariants (env : ReleaseEnv) : Nat :=
  if env.rawVariants = 0 then 1 else env.rawVariants

/-- Per-variant loop shared by the build and install phases: process the
variants in index order, emitting one event per completed variant and
aborting on the first failure. -/
def runVariants (ok : Nat → Bool) (ev : Nat → REvent) (msg : String) :
    List Nat → List REvent × Option RErr
  | [] => ([], none)
  | i :: is =>
    if ok i then
      ((ev i :: (runVariants ok ev msg is).1), (runVariants ok ev msg is).2)
    else
      ([], some (.releaseError msg))

/-- Embedding of `RezReleaseMode.pre_build`: load metadata, resolve the
central release directory, check the central uuid marker, resolve
variants, create the scratch root, freeze the build time, then validate
the repository state and the version and obtain the commit message.
Returns `package_uuid_exists`. -/
def pre_build (env : ReleaseEnv) : Except RErr Bool :=
  if ¬ env.metadataOk then .error (.releaseError "bad metadata")
  else if ¬ env.releaseDirSet then .error (.releaseError "REZ_RELEASE_PACKAGES_PATH is not set.")
  else
    match check_uuid env.uuidFileContents env.metadataUuid with
    | .error e => .error e
    | .ok uuidExists =>
      if ¬ env.repostateOk then .error (.releaseError "not in a state to release")
      else if ¬ env.versionOk then .error (.releaseError "cannot release: version not latest")
      else if ¬ env.commitMsgOk then .error (.releaseError "Error getting commit message")
      else .ok uuidExists

/-- Embedding of `RezReleaseMode.build`: build every variant in index
order; a failing build aborts the release. -/
def buildPhase (env : ReleaseEnv) : List REvent × Option RErr :=
  runVariants env.buildOk REvent.buildVariant "rez-release: build failed"
    (List.range (nVariants env))

/-- Embedding of `RezReleaseMode.install`: on the first release of the
family create the family directory and write the `package.uuid` marker,
then install every variant in index order. -/
def installFailMsg : String :=
  "rez-release: install failed!! A partial central installation may have resulted, please see to this immediately - it should probably be removed."

def installPhase (env : ReleaseEnv) (uuidExists : Bool) : List REvent × Option RErr :=
  ((if uuidExists then []
    else [REvent.mkFamilyDir, REvent.writeUuidFile env.metadataUuid]) ++
      (runVariants env.installOk REvent.installVariant installFailMsg
        (List.range (nVariants env))).1,
    (runVariants env.installOk REvent.installVariant installFailMsg
      (List.range (nVariants env))).2)

/-- Embedding of `RezReleaseMode.post_install`: write the release-time
metafile, send the notification email, and create the VCS tag — in that
order, the tag creation last. -/
def post_install (env : ReleaseEnv) : List REvent × Option RErr :=
  ([REvent.writeTimeMetafile, REvent.sendEmail, REvent.createTag],
    if env.tagOk then none else some (.releaseError "tag failed"))

/-- Embedding of `RezReleaseMode.release`: the four phases in fixed
order, aborting the run on the first failure.  Returns the event trace
and the error, if any. -/
def releaseTrace (env : ReleaseEnv) : List REvent × Option RErr :=
  match pre_build env with
  | .error e => ([], some e)
  | .ok uuidExists =>
    match (buildPhase env).2 with
    | some e => ((buildPhase env).1, some e)
    | none =>
      match (installPhase env uuidExists).2 with
      | some e => ((buildPhase env).1 ++ (installPhase env uuidExists).1, some e)
      | none =>
        ((buildPhase env).1 ++ (installPhase env uuidExists).1 ++ (post_install env).1,
          (post_install env).2)

/-! ### Subversion backend (`SvnRezReleaseMode`) -/

/-- Index of the first occurrence of `pat` in `s`, if any. -/
def findSubIdx (pat : List Char) : List Char → Option Nat
  | [] => if pat.isPrefixOf ([] : List Char) then some 0 else none
  | c :: rest =>
    if pat.isPrefixOf (c :: rest) then some 0
    else (findSubIdx pat rest).map (· + 1)

/-- Model of Python `s.find(sub)`: lowest index, or `-1`. -/
def pyFind (s sub : String) : Int :=
  match findSubIdx sub.data s.data with
  | some i => (i : Int)
  | none => -1

/-- Model of the Python `in` operator on strings. -/
def containsSub (s sub : String) : Bool :=
  decide (pyFind s sub ≠ -1)

/-- Model of the Python slice `s[:n]` for `n ≥ 0`. -/
def strTake (s : String) (n : Nat) : String := ⟨s.data.take n⟩

/-- Model of `s.split('/')[-1]` (`split` never returns an empty list, so
the default is unreachable). -/
def lastSlashSegment (s : String) : String :=
  ⟨(splitOnChar '/' s.data).getLastD []⟩

/-- Embedding of `SvnRezReleaseMode.get_tag_url`: locate the trailing
`/trunk` or `/branches` segment of the working-copy URL, cut the URL
there, append `/tags` and optionally the version. -/
def svn_get_tag_url (this_url : String) (version : Option String) :
    Except RErr String :=
  let pos_tr := pyFind this_url "/trunk"
  let pos_br := pyFind this_url "/branches"
  let pos := max pos_tr pos_br
  if pos = -1 then
    .error (.releaseError (this_url ++ "is not in a branch or trunk"))
  else
    let base_url := strTake this_url pos.toNat
    let tag_url := base_url ++ "/tags"
    .ok (match version with
      | some v => tag_url ++ "/" ++ v
      | none => tag_url)

/-- The body of the tag-name extraction loop in
`SvnRezReleaseMode.get_tags`: take the last slash segment of the entry
name and convert an old-style `vXX_XX_XX` tag to dotted form (where the
subscripts `tag[0]`, `nums[2]` and `int(...)` can raise). -/
def svn_tag_from_entry (name : String) : Except RErr String :=
  let tag := lastSlashSegment name
  match tag.data with
  | [] => .error .indexError
  | c :: rest =>
    if c = 'v' then
      let nums := (splitOnChar '_' rest).map (fun l => (⟨l⟩ : String))
      match nums with
      | n0 :: n1 :: n2 :: _ =>
        match parseNatDigits n0.data, parseNatDigits n1.data, parseNatDigits n2.data with
        | some a, some b, some c2 =>
          .ok (natRepr a ++ "." ++ natRepr b ++ "." ++ natRepr c2)
        | _, _, _ => .error .valueError
      | _ => .error .indexError
    else .ok tag

/-- Observable repository state seen by the svn backend. -/
structure SvnRepoState where
  /-- `self.this_url`, the working-copy URL. -/
  this_url : String
  /-- Whether a repository URL exists (`svn_url_exists`). -/
  urlExists : String → Bool
  /-- Entry names returned by `svnc.ls` on a URL. -/
  lsNames : String → List String

/-- Embedding of `SvnRezReleaseMode.get_tags`: derive the tags URL, fail
if it does not exist or its listing is empty — then the source rebinds
`tags = []` (line 850), discarding the listing, so the extraction loop
runs over the empty list. -/
def svn_get_tags (st : SvnRepoState) : Except RErr (List String) :=
  match svn_get_tag_url st.this_url none with
  | .error e => .error e
  | .ok tag_url =>
    if ¬ st.urlExists tag_url then
      .error (.releaseError ("Tag url does not exist: " ++ tag_url))
    else
      let tags := st.lsNames tag_url
      if tags.length = 0 then .error (.releaseError "No existing tags")
      else
        let tags2 : List String := []
        match tags2.mapM svn_tag_from_entry with
        | .error e => .error e
        | .ok out => .ok out

/-- Embedding of `SvnRezReleaseMode.get_last_tagged_version`: seed the
latest version from the branch name when releasing off a branch
(propagating a `VersionError` on an unparsable branch name), then run the
same scanning loop as the base class over `self.get_tags()`. -/
def svn_get_last_tagged_version (st : SvnRepoState) : Except RErr (Option Version) :=
  let latestRes : Except RErr Version :=
    if containsSub st.this_url "/branches/" then
      match parseVersion (lastSlashSegment st.this_url) with
      | some v => .ok v
      | none => .error .versionError
    else .ok ver0
  match latestRes with
  | .error e => .error e
  | .ok latest0 =>
    match svn_get_tags st with
    | .error e => .error e
    | .ok tags => .ok (gltvGo tags latest0 false)

/-- State read by `SvnRezReleaseMode.validate_version`. -/
structure SvnState where
  /-- `self.this_url`, the working-copy URL. -/
  this_url : String
  /-- Whether a repository URL exists (`svn_url_exists`). -/
  urlExists : String → Bool
  /-- The `self.version` attribute that `validate_version` reads: `none`
  models an absent attribute, whose lookup raises `AttributeError`. -/
  version_attr : Option String

/-- The value of the `version` attribute at the time
`SvnRezReleaseMode.validate_version` runs: no statement in the repository
ever assigns `self.version` (the constructor and `pre_build` assign
`self.this_version`, `self.tag_url`, `self.metadata`, but never
`self.version`), so the attribute is absent. -/
def svn_version_attr : Option String := none

/-- Embedding of `SvnRezReleaseMode.validate_version`: read
`self.version`, derive the tag URL for it, fail if that tag URL already
exists, then defer to the base-class validation; on success the derived
tag URL is stored into `self.tag_url` (the returned string). -/
def svn_validate_version (st : SvnState) (allow_not_latest : Bool)
    (last_tagged_version : Option Version) (this_version : Version) :
    Except RErr String :=
  match st.version_attr with
  | none => .error .attributeError
  | some v =>
    match svn_get_tag_url st.this_url (some v) with
    | .error e => .error e
    | .ok tag_url =>
      if st.urlExists tag_url then
        .error (.releaseError ("cannot release: the tag " ++ tag_url ++ " already exists in svn. You may need to up your version, svn-checkin and try again."))
      else
        match validate_version allow_not_latest last_tagged_version this_version with
        | .error e => .error e
        | .ok _ => .ok tag_url

end Rez

namespace Rez.Git

/-! ### Git backend (`rezplugins/release_vcs/git.py`)

VCS commands are external: their observable outputs are fields of the
state structures below, and mutating commands are recorded as actions. -/

/-- Errors of the git plugin (`ReleaseVCSError` and its subclass). -/
inductive GitErr where
  | vcsError (msg : String)
  deriving DecidableEq, Repr

/-- One pass of the model of `re.findall` for the pattern
`\[([^\]]+)\]`: scan for an opening bracket, then collect the nonempty
run of non-`]` characters (accumulated in reverse) up to the next
closing bracket. -/
def bgAux : List Char → Option (List Char) → List (List Char)
  | [], _ => []
  | c :: rest, none => if c = '[' then bgAux rest (some []) else bgAux rest none
  | c :: rest, some acc =>
    if c = ']' then
      if acc.isEmpty then bgAux rest none
      else acc.reverse :: bgAux rest none
    else bgAux rest (some (c :: acc))

/-- Model of `re.findall("\[([^\]]+)\]", s)`. -/
def bracketGroups (s : String) : List (List Char) := bgAux s.data none

/-- Model of Python `str.split()` with no argument: split on whitespace
runs, dropping empty fields (`acc` holds the current field reversed). -/
def splitWsAux : List Char → List Char → List (List Char)
  | [], acc => if acc.isEmpty then [] else [acc.reverse]
  | c :: rest, acc =>
    if c.isWhitespace then
      if acc.isEmpty then splitWsAux rest []
      else acc.reverse :: splitWsAux rest []
    else splitWsAux rest (c :: acc)

/-- Model of Python `str.split()` with no argument. -/
def splitWs (l : List Char) : List (List Char) := splitWsAux l []

/-- Embedding of `GitReleaseVCS.get_relative_to_remote`, applied to the
first output line of `git status --short -b`: take the last bracketed
token, keep the part before the first comma, split it into an adjective
and a count; behind counts are negated, and any parsing problem
(including a failing destructuring, the assertion, or `int`) raises a
`ReleaseVCSError`. -/
def get_relative_to_remote (statusLine : String) : Except String Int :=
  let toks := bracketGroups statusLine
  match toks.getLast? with
  | none => .ok 0
  | some s2 =>
    let firstPart := s2.takeWhile (fun c => c ≠ ',')
    match splitWs firstPart with
    | [adj, n] =>
      if adj = "ahead".data ∨ adj = "behind".data then
        match Rez.parseNatDigits n with
        | some k => .ok (if adj = "behind".data then -(k : Int) else (k : Int))
        | none => .error "Problem parsing first line of result of git status --short -b"
      else .error "Problem parsing first line of result of git status --short -b"
    | _ => .error "Problem parsing first line of result of git status --short -b"

/-- Mutating VCS commands issued by `validate_repostate`. -/
inductive GitCmd where
  | remoteUpdate (remote : String)
  deriving DecidableEq, Repr

/-- Python equality between a list of strings and a string: always
false.  (`validate_repostate` compares the line list returned by
`self.git(...)` against the string `"true"`.) -/
def listEqStr (_ : List String) (_ : String) : Bool := false

/-- Observable repository state read by `validate_repostate`. -/
structure GitState where
  /-- Output lines of `git rev-parse --is-bare-repository`. -/
  bareOutput : List String
  /-- Output lines of `git ls-files --other --exclude-standard`. -/
  untracked : List String
  /-- Output lines of `git status --porcelain`. -/
  porcelain : List String
  /-- Output lines of plain `git status` (used in the dirty message). -/
  statusOutput : List String
  /-- `get_tracking_branch()`: `(remote, branch)`, or `none`. -/
  tracking : Option (String × String)
  /-- Config `plugins.release_vcs.git.allow_no_upstream`. -/
  allowNoUpstream : Bool
  /-- Config `releasable_branches` patterns. -/
  releasableBranches : List String
  /-- `get_local_branch()`. -/
  localBranch : String
  /-- Oracle for `re.search(pattern, branch)`. -/
  branchSearch : String → String → Bool
  /-- First output line of `git status --short -b`. -/
  statusLine : String

/-- The message raised when the local branch has nonzero distance to its
tracking branch. -/
def divergeMsg (k : Nat) (dir : String) (remote_uri : String) : String :=
  "Could not release: " ++ Rez.natRepr k ++ " commits " ++ dir ++ " " ++ remote_uri ++ "."

/-- Embedding of `GitReleaseVCS.validate_repostate`: the checks in
source order — bare repository, untracked files, uncommitted changes,
missing upstream, disallowed branch — and finally, when a tracking
remote exists, `git remote update` followed by the ahead/behind check.
Returns the mutating commands issued and the error, if any. -/
def validate_repostate (st : GitState) : List GitCmd × Option GitErr :=
  if listEqStr st.bareOutput "true" then
    ([], some (.vcsError "Could not release: bare git repository"))
  else if st.untracked ≠ [] then
    ([], some (.vcsError ("Could not release: there are untracked files:\n" ++ Rez.joinLines st.untracked)))
  else if st.porcelain ≠ [] then
    ([], some (.vcsError ("Could not release: there are uncommitted changes:\n" ++ Rez.joinLines st.statusOutput)))
  else if st.tracking = none ∧ st.allowNoUpstream = false then
    ([], some (.vcsError "Release cancelled: there is no upstream branch"))
  else if st.releasableBranches ≠ [] ∧
      st.releasableBranches.all (fun p => ¬ st.branchSearch p st.localBranch) then
    ([], some (.vcsError ("Could not release: current branch is " ++ st.localBranch)))
  else
    match st.tracking with
    | none => ([], none)
    | some (r, rb) =>
      ([.remoteUpdate r],
        match get_relative_to_remote st.statusLine with
        | .error e => some (.vcsError e)
        | .ok n =>
          if n ≠ 0 then
            some (.vcsError (divergeMsg n.natAbs (if n > 0 then "ahead of" else "behind") (r ++ "/" ++ rb)))
          else none)

/-- Relation of the local branch to its tracking branch, as reported by
git, with the counts kept as the digit strings git printed. -/
inductive RemoteRel where
  | synced
  | aheadBy (sa : String)
  | behindBy (sb : String)
  | diverged (sa sb : String)

/-- Modelled from the spec: the bracketed ahead/behind section that git
appends to the branch header line of `git status --short -b`. -/
def renderRel : RemoteRel → String
  | .synced => ""
  | .aheadBy sa => " [ahead " ++ sa ++ "]"
  | .behindBy sb => " [behind " ++ sb ++ "]"
  | .diverged sa sb => " [ahead " ++ sa ++ ", behind " ++ sb ++ "]"

/-- Modelled from the spec: the branch header line of
`git status --short -b`, a branch part followed by the bracketed
ahead/behind section. -/
def mkStatusLine (branchPart : String) (r : RemoteRel) : String :=
  branchPart ++ renderRel r

/-- A git-printed count: a nonempty digit string with positive value. -/
def digitStrWf (s : String) : Prop :=
  s.data ≠ [] ∧ s.data.all Char.isDigit = true ∧ 0 < Rez.digitsVal s.data

/-- Wellformedness of a reported relation: git prints counts as nonempty
digit strings with positive value. -/
def RelWf : RemoteRel → Prop
  | .synced => True
  | .aheadBy sa => digitStrWf sa
  | .behindBy sb => digitStrWf sb
  | .diverged sa sb => digitStrWf sa ∧ digitStrWf sb

/-- The outcome `validate_repostate` reports for a given relation to the
tracking branch: no error when in sync, otherwise the error carrying the
absolute distance and the direction — for a simultaneously ahead and
behind branch, the ahead count. -/
def relOutcome (r : RemoteRel) (remote rb : String) : Option GitErr :=
  match r with
  | .synced => none
  | .aheadBy sa =>
    some (.vcsError (divergeMsg (Rez.digitsVal sa.data) "ahead of" (remote ++ "/" ++ rb)))
  | .behindBy sb =>
    some (.vcsError (divergeMsg (Rez.digitsVal sb.data) "behind" (remote ++ "/" ++ rb)))
  | .diverged sa _ =>
    some (.vcsError (divergeMsg (Rez.digitsVal sa.data) "ahead of" (remote ++ "/" ++ rb)))

/-- Tag state read and written by `create_release_tag`. -/
structure GitTagState where
  /-- Output lines of `git tag`: the existing tag names. -/
  tags : List String
  /-- `get_tracking_branch()`: `(remote, branch)`, or `none`. -/
  tracking : Option (String × String)
  deriving DecidableEq

/-- Mutating tag operations issued by `create_release_tag`. -/
inductive TagAction where
  | createTag (name msg : String)
  | pushTag (remote name : String)
  deriving DecidableEq, Repr

/-- Whether a tag action is the mutating tag creation. -/
def isCreateTag : TagAction → Bool
  | .createTag _ _ => true
  | _ => false

/-- Embedding of `GitReleaseVCS.create_release_tag`: return immediately
if the tag name is already listed by `git tag`; otherwise create one
annotated tag carrying `message or ''` and, when a tracking remote
exists, push the tag to it.  Returns the updated tag state and the
mutating operations performed. -/
def create_release_tag (st : GitTagState) (tag_name : String)
    (message : Option String) : GitTagState × List TagAction :=
  if tag_name ∈ st.tags then (st, [])
  else
    let st' : GitTagState := { st with tags := st.tags ++ [tag_name] }
    let acts := [TagAction.createTag tag_name (message.getD "")]
    match st.tracking with
    | none => (st', acts)
    | some (r, _) => (st', acts ++ [TagAction.pushTag r tag_name])

/-- One commit of the history reachable from HEAD. -/
structure Commit where
  hash : String
  isMerge : Bool
  subject : String
  deriving DecidableEq, Repr

/-- Modelled from the spec: the commits in `h..HEAD`, for a history given
newest first (`git log` order). -/
def commitsAfter (repo : List Commit) (h : String) : List Commit :=
  repo.takeWhile (fun c => c.hash ≠ h)

/-- Modelled from the spec: the output lines `git log` prints for one
commit. -/
def renderCommit (c : Commit) : List String :=
  ["commit " ++ c.hash, "    " ++ c.subject]

/-- Modelled from the spec: output lines of `git log [range]` — note, no
`--no-merges` flag, so merge commits are listed too. -/
def gitLogLines (repo : List Commit) (range : Option String) : List String :=
  (match range with
   | none => repo
   | some h => commitsAfter repo h).flatMap renderCommit

/-- Embedding of `GitReleaseVCS.get_changelog`, producing the output
line list: extract the previous commit from the revision dictionary
(a failed lookup is caught and leaves it absent), then replay
`git log prev..HEAD` — or the full log when no previous commit is
known. -/
def get_changelog_lines (repo : List Commit)
    (previous_revision : Option (List (String × String))) : List String :=
  let prev_commit : Option String :=
    match previous_revision with
    | none => none
    | some d => d.lookup "commit"
  match prev_commit with
  | some h =>
    if h ≠ "" then gitLogLines repo (some h)
    else gitLogLines repo none
  | none => gitLogLines repo none

/-- Embedding of `GitReleaseVCS.get_changelog`: the joined output. -/
def get_changelog (repo : List Commit)
    (previous_revision : Option (List (String × String))) : String :=
  Rez.joinLines (get_changelog_lines repo previous_revision)

/-- Modelled from the spec: the detail text `git log <hash> --name-only
--no-merges -1 --pretty=<format>` prints for one commit. -/
def detailRender (c : Commit) : String := c.hash ++ ": " ++ c.subject

/-- Modelled from the spec: output of `git log -n 100 <prev>..
--no-merges --reverse --pretty=%H .` — the newest 100 non-merge commits
after `prev`, oldest first (git applies the limit before `--reverse`). -/
def gitLogHashes (repo : List Commit) (h : String) : List String :=
  ((((commitsAfter repo h).filter (fun c => !c.isMerge)).take 100).reverse).map
    (fun c => c.hash)

/-- Modelled from the spec: the per-hash detail query of
`get_commit_details`. -/
def commitDetail (repo : List Commit) (h : String) : String :=
  match repo.find? (fun c => c.hash == h) with
  | some c => detailRender c
  | none => ""

/-- Embedding of `GitReleaseVCS.get_commit_details`: when the previous
revision carries a (truthy) commit, list the newest 100 non-merge
commits after it, oldest first, and query the detail text of each. -/
def get_commit_details (repo : List Commit)
    (previous_revision : Option (List (String × String))) : List String :=
  let previous_commit : Option String := (previous_revision.getD []).lookup "commit"
  match previous_commit with
  | some h =>
    if h ≠ "" then (gitLogHashes repo h).map (commitDetail repo)
    else []
  | none => []

end Rez.Git

namespace Rez

/-! ### Lemmas about the version order and the latest-tag scan -/

theorem vlt_irrefl (a : Version) : vlt a a = false := by
  unfold vlt
  rw [(vcmp_eq_iff a a).2 rfl]

theorem gltvGo_eq_none (ts : List String) :
    ∀ (latest : Version) (found : Bool),
      gltvGo ts latest found = none ↔
        found = false ∧ ∀ v ∈ ts.filterMap parseVersion, vlt latest v = false := by
  induction ts with
  | nil =>
    intro latest found
    cases found <;> simp [gltvGo]
  | cons t ts ih =>
    intro latest found
    rcases hp : parseVersion t with _ | v
    · simp only [gltvGo, hp, List.filterMap_cons_none hp]
      exact ih latest found
    · simp only [gltvGo, hp, List.filterMap_cons_some hp]
      rcases hv : vlt latest v with _ | _
      · rw [if_neg (by simp), ih latest found]
        simp [hv]
      · rw [if_pos rfl, ih v true]
        simp [hv]

theorem gltvGo_eq_some (ts : List String) :
    ∀ (latest : Version) (found : Bool) (m : Version),
      gltvGo ts latest found = some m →
        (found = true → ((m = latest ∨ m ∈ ts.filterMap parseVersion) ∧ vle latest m = true)) ∧
        (found = false → (m ∈ ts.filterMap parseVersion ∧ vlt latest m = true)) ∧
        (∀ w ∈ ts.filterMap parseVersion, vlt m w = false) := by
  induction ts with
  | nil =>
    intro latest found m h
    cases found with
    | false => simp [gltvGo] at h
    | true =>
      simp [gltvGo] at h
      subst h
      exact ⟨fun _ => ⟨Or.inl rfl, vle_refl latest⟩, fun hf => absurd hf (by simp),
        fun w hw => absurd hw (by simp)⟩
  | cons t ts ih =>
    intro latest found m h
    rcases hp : parseVersion t with _ | v
    · simp only [gltvGo, hp] at h
      rw [List.filterMap_cons_none hp]
      exact ih latest found m h
    · simp only [gltvGo, hp] at h
      rw [List.filterMap_cons_some hp]
      rcases hv : vlt latest v with _ | _ <;> rw [hv] at h
      · -- no update: same latest, same found
        rw [if_neg (by simp)] at h
        obtain ⟨h1, h2, h3⟩ := ih latest found m h
        have hlem : vle latest m = true := by
          cases found with
          | false => exact vlt_vle _ _ (h2 rfl).2
          | true => exact (h1 rfl).2
        have hmv : vlt m v = false := by
          rcases hmv' : vlt m v with _ | _
          · rfl
          · have := vle_vlt_trans latest m v hlem hmv'
            rw [this] at hv
            cases hv
        refine ⟨?_, ?_, ?_⟩
        · intro hf
          obtain ⟨ha, hb⟩ := h1 hf
          exact ⟨ha.imp id (fun hm => List.mem_cons_of_mem _ hm), hb⟩
        · intro hf
          obtain ⟨ha, hb⟩ := h2 hf
          exact ⟨List.mem_cons_of_mem _ ha, hb⟩
        · intro w hw
          rcases List.mem_cons.1 hw with hw' | hw'
          · rw [hw']
            exact hmv
          · exact h3 w hw'
      · -- update: latest becomes v, found becomes true
        rw [if_pos rfl] at h
        obtain ⟨h1, _, h3⟩ := ih v true m h
        obtain ⟨ha, hb⟩ := h1 rfl
        have hmem : m ∈ v :: ts.filterMap parseVersion := by
          rcases ha with ha' | ha'
          · rw [ha']
            exact List.mem_cons_self _ _
          · exact List.mem_cons_of_mem _ ha'
        have hlatm : vlt latest m = true := vlt_vle_trans latest v m hv hb
        have hmv : vlt m v = false := by
          rcases hmv' : vlt m v with _ | _
          · rfl
          · have := vle_vlt_trans v m v hb hmv'
            rw [vlt_irrefl v] at this
            cases this
        refine ⟨?_, ?_, ?_⟩
        · intro _
          exact ⟨Or.inr hmem, vlt_vle _ _ hlatm⟩
        · intro _
          exact ⟨hmem, hlatm⟩
        · intro w hw
          rcases List.mem_cons.1 hw with hw' | hw'
          · rw [hw']
            exact hmv
          · exact h3 w hw'

end Rez

/-- C2: `validate_version` raises a release error if and only if
`allow_not_latest` is false, a last tagged version exists, its string
form does not begin with the letter v, and
`this_version <= last_tagged_version`; in every other combination it
returns silently (for wellformed version values, whose rendering is
never the empty string). -/
theorem c2_validate_version_iff (allow : Bool) (last : Option Rez.Version)
    (thisv : Rez.Version) (hwf : ∀ v, last = some v → Rez.VWf v) :
    ((∃ m, Rez.validate_version allow last thisv = .error (.releaseError m)) ↔
      (allow = false ∧ ∃ ltv, last = some ltv ∧
        (Rez.vToString ltv).data.head? ≠ some 'v' ∧ Rez.vle thisv ltv = true)) ∧
    (Rez.validate_version allow last thisv = .ok () ↔
      ¬ (allow = false ∧ ∃ ltv, last = some ltv ∧
        (Rez.vToString ltv).data.head? ≠ some 'v' ∧ Rez.vle thisv ltv = true)) := by
  cases allow with
  | true => simp [Rez.validate_version]
  | false =>
    rcases last with _ | ltv
    · simp [Rez.validate_version]
    · have hne := Rez.vToString_ne_nil ltv (hwf ltv rfl)
      rcases hd : (Rez.vToString ltv).data with _ | ⟨c, rest⟩
      · exact absurd hd hne
      · rcases hc : (c = 'v' : Bool) with hc' | hc'
        · simp only [decide_eq_false_iff_not] at hc
          rcases hle : Rez.vle thisv ltv with hle' | hle'
          · simp [Rez.validate_version, hd, hc, hle]
          · simp [Rez.validate_version, hd, hc, hle]
        · simp only [decide_eq_true_eq] at hc
          subst hc
          simp [Rez.validate_version, hd]

/-- Witness for C2: releasing version 1.0.0 over an existing tag 1.0.0
with `allow_not_latest` unset raises the release error. -/
theorem c2_validate_version_iff_witness :
    ∃ m, Rez.validate_version false (some [Rez.VComp.num 1, Rez.VComp.num 0, Rez.VComp.num 0])
      [Rez.VComp.num 1, Rez.VComp.num 0, Rez.VComp.num 0] = .error (.releaseError m) :=
  (c2_validate_version_iff false
      (some [Rez.VComp.num 1, Rez.VComp.num 0, Rez.VComp.num 0])
      [Rez.VComp.num 1, Rez.VComp.num 0, Rez.VComp.num 0]
      (by intro v hv; cases hv; decide)).1.mpr
    ⟨rfl, [Rez.VComp.num 1, Rez.VComp.num 0, Rez.VComp.num 0], rfl, by decide, by decide⟩

/-- C4 counterexample: the tag `0` parses as a version (the universal
minimum), yet `get_last_tagged_version` applied to the tag list
containing exactly it returns none — the claim that none is returned
exactly when no tag parses fails on this input. -/
theorem c4_counterexample :
    Rez.parseVersion "0" = some Rez.ver0 ∧
      Rez.get_last_tagged_version ["0"] = none := by
  constructor <;> rfl

/-- C4 as amended: `get_last_tagged_version` returns none exactly when no
parsable tag strictly exceeds version 0; otherwise it returns the maximum
of the parsable tags (which strictly exceeds version 0). -/
theorem c4_max_parsable_amended (tags : List String) :
    (Rez.get_last_tagged_version tags = none ↔
      ∀ v ∈ tags.filterMap Rez.parseVersion, Rez.vlt Rez.ver0 v = false) ∧
    (∀ m, Rez.get_last_tagged_version tags = some m →
      m ∈ tags.filterMap Rez.parseVersion ∧ Rez.vlt Rez.ver0 m = true ∧
      ∀ w ∈ tags.filterMap Rez.parseVersion, Rez.vlt m w = false) := by
  constructor
  · rw [Rez.get_last_tagged_version, Rez.gltvGo_eq_none]
    simp
  · intro m h
    obtain ⟨-, h2, h3⟩ := Rez.gltvGo_eq_some tags Rez.ver0 false m h
    obtain ⟨ha, hb⟩ := h2 rfl
    exact ⟨ha, hb, h3⟩

/-- Witness for C4 (amended): on a list with unparsable noise the
maximum parsable tag 1.2.0 is found, is a member, exceeds version 0, and
no parsable tag exceeds it. -/
theorem c4_max_parsable_amended_witness :
    [Rez.VComp.num 1, Rez.VComp.num 2, Rez.VComp.num 0] ∈
        (["noise!", "1.2.0", "1.1.9"].filterMap Rez.parseVersion) ∧
      Rez.vlt Rez.ver0 [Rez.VComp.num 1, Rez.VComp.num 2, Rez.VComp.num 0] = true ∧
      ∀ w ∈ (["noise!", "1.2.0", "1.1.9"].filterMap Rez.parseVersion),
        Rez.vlt [Rez.VComp.num 1, Rez.VComp.num 2, Rez.VComp.num 0] w = false :=
  (c4_max_parsable_amended ["noise!", "1.2.0", "1.1.9"]).2
    [Rez.VComp.num 1, Rez.VComp.num 2, Rez.VComp.num 0] (by decide)

/-- C5 counterexample: a registry holding one backend whose construction
raises a generic (non-unsupported) failure.  The claim predicts the
failure propagates to the caller (the claim-faithful probe returns the
error), but the source probe returns normally with the backend silently
excluded. -/
theorem c5_counterexample :
    Rez.list_available_release_modes_claim
        ([("bad", fun _ => Except.error (Rez.ConstructErr.other "boom"))] : Rez.Registry)
        "/some/path" = Except.error (Rez.ConstructErr.other "boom") ∧
      Rez.list_available_release_modes
        ([("bad", fun _ => Except.error (Rez.ConstructErr.other "boom"))] : Rez.Registry)
        "/some/path" = [] := by
  constructor <;> rfl

/-- C5 as amended: probing returns exactly the names of the registered
backends whose construction succeeds, in priority order (most recently
registered first, since registration prepends); every construction
failure — the dedicated unsupported condition or any other exception —
is silently excluded and never propagates. -/
theorem c5_probe_available_amended (reg : Rez.Registry) (path : String) :
    Rez.list_available_release_modes reg path =
      (reg.filter (fun p => Rez.exOk (p.2 path))).map (fun p => p.1) ∧
    (Rez.list_available_release_modes reg path).Sublist (Rez.list_release_modes reg) ∧
    (∀ name cls reg', Rez.register_release_mode reg name cls = .ok reg' →
      Rez.list_release_modes reg' = name :: Rez.list_release_modes reg) := by
  have hfil : Rez.list_available_release_modes reg path =
      (reg.filter (fun p => Rez.exOk (p.2 path))).map (fun p => p.1) := by
    induction reg with
    | nil => rfl
    | cons p rest ih =>
      rcases hc : p.2 path with u | e
      · simp [Rez.list_available_release_modes, Rez.exOk, hc, List.filter_cons] at ih ⊢
        exact ih
      · simp [Rez.list_available_release_modes, Rez.exOk, hc, List.filter_cons] at ih ⊢
        exact ih
  refine ⟨hfil, ?_, ?_⟩
  · rw [hfil]
    exact List.Sublist.map _ (List.filter_sublist reg)
  · intro name cls reg' h
    by_cases hmem : name ∈ Rez.list_release_modes reg
    · simp [Rez.register_release_mode, hmem] at h
    · simp [Rez.register_release_mode, hmem] at h
      rw [← h]
      rfl

/-- Witness for C5 (amended): a registry where `hg` was registered after
`base` and an unsupported `git` probe sits in front; probing keeps only
the constructible backends, newest first, and a fresh registration of
`svn` lands at the front of the mode list. -/
theorem c5_probe_available_amended_witness :
    Rez.list_available_release_modes
        ([("hg", fun _ => Except.error (Rez.ConstructErr.unsupported "no .hg")),
          ("svn", fun _ => Except.error (Rez.ConstructErr.other "pysvn blew up")),
          ("base", fun _ => Except.ok ())] : Rez.Registry) "/plain/dir" = ["base"] ∧
      Rez.list_release_modes
        (("git", fun _ => Except.ok ()) ::
          ([("base", fun _ => Except.ok ())] : Rez.Registry)) =
        "git" :: Rez.list_release_modes ([("base", fun _ => Except.ok ())] : Rez.Registry) := by
  constructor
  · exact (c5_probe_available_amended _ "/plain/dir").1.trans rfl
  · exact (c5_probe_available_amended
      ([("base", fun _ => Except.ok ())] : Rez.Registry) "/plain/dir").2.2
      "git" (fun _ => Except.ok ()) _ rfl

/-- C7: git `create_release_tag` is idempotent — if the tag name is
already listed the call performs no action and leaves the state
untouched; otherwise it creates exactly one annotated tag carrying the
given message (empty when none is given) and pushes it exactly when a
tracking remote exists; two successive calls with the same name perform
the mutating tag creation at most once. -/
theorem c7_create_release_tag_idempotent (st : Rez.Git.GitTagState)
    (name : String) (msg : Option String) :
    (name ∈ st.tags → Rez.Git.create_release_tag st name msg = (st, [])) ∧
    (name ∉ st.tags →
      (Rez.Git.create_release_tag st name msg).2 =
        Rez.Git.TagAction.createTag name (msg.getD "") ::
          (match st.tracking with
           | none => []
           | some (r, _) => [Rez.Git.TagAction.pushTag r name]) ∧
      (Rez.Git.create_release_tag st name msg).1 =
        { st with tags := st.tags ++ [name] }) ∧
    (((Rez.Git.create_release_tag st name msg).2 ++
        (Rez.Git.create_release_tag (Rez.Git.create_release_tag st name msg).1 name msg).2).countP
      Rez.Git.isCreateTag ≤ 1) := by
  by_cases hmem : name ∈ st.tags
  · refine ⟨fun _ => by simp [Rez.Git.create_release_tag, hmem], fun hn => absurd hmem hn, ?_⟩
    simp [Rez.Git.create_release_tag, hmem]
  · have hmem2 : name ∈ st.tags ++ [name] := List.mem_append_right _ (List.mem_singleton.2 rfl)
    rcases htr : st.tracking with _ | ⟨r, rb⟩
    · refine ⟨fun hy => absurd hy hmem, fun _ => ⟨?_, ?_⟩, ?_⟩
      · simp [Rez.Git.create_release_tag, hmem, htr]
      · simp [Rez.Git.create_release_tag, hmem, htr]
      · simp [Rez.Git.create_release_tag, hmem, htr, hmem2, Rez.Git.isCreateTag]
    · refine ⟨fun hy => absurd hy hmem, fun _ => ⟨?_, ?_⟩, ?_⟩
      · simp [Rez.Git.create_release_tag, hmem, htr]
      · simp [Rez.Git.create_release_tag, hmem, htr]
      · simp [Rez.Git.create_release_tag, hmem, htr, hmem2, Rez.Git.isCreateTag]

/-- Witness for C7: creating tag 2.0.0 over an existing tag list
containing only 1.0.0, with a tracking remote, creates the annotated tag
and pushes it; re-requesting the existing tag 1.0.0 is a no-op. -/
theorem c7_create_release_tag_idempotent_witness :
    (Rez.Git.create_release_tag ⟨["1.0.0"], some ("origin", "master")⟩ "2.0.0"
        (some "release 2.0.0")).2 =
      [Rez.Git.TagAction.createTag "2.0.0" "release 2.0.0",
       Rez.Git.TagAction.pushTag "origin" "2.0.0"] ∧
    Rez.Git.create_release_tag ⟨["1.0.0"], some ("origin", "master")⟩ "1.0.0" none =
      (⟨["1.0.0"], some ("origin", "master")⟩, []) := by
  constructor
  · exact ((c7_create_release_tag_idempotent ⟨["1.0.0"], some ("origin", "master")⟩
      "2.0.0" (some "release 2.0.0")).2.1 (by decide)).1
  · exact (c7_create_release_tag_idempotent ⟨["1.0.0"], some ("origin", "master")⟩
      "1.0.0" none).1 (by decide)

/-- C9: `SvnRezReleaseMode.validate_version` reads `self.version`, an
attribute no statement in the repository ever assigns, so every call
raises `AttributeError` before the tag URL is ever derived or checked —
the intended check (derive the tag URL from the working-copy URL and
fail if it already exists) is never reached. -/
theorem c9_validate_version_attribute_error (st : Rez.SvnState) (allow : Bool)
    (last : Option Rez.Version) (thisv : Rez.Version)
    (h : st.version_attr = Rez.svn_version_attr) :
    Rez.svn_validate_version st allow last thisv = .error Rez.RErr.attributeError := by
  rw [Rez.svn_validate_version, h]
  rfl

/-- Witness for C9: a release of version 1.0.0 from a trunk working copy
in which every tag URL exists (so the claimed already-exists release
error should fire) still fails with `AttributeError` instead. -/
theorem c9_validate_version_attribute_error_witness :
    Rez.svn_validate_version ⟨"http://repo/proj/trunk", fun _ => true, Rez.svn_version_attr⟩
      false none [Rez.VComp.num 1, Rez.VComp.num 0, Rez.VComp.num 0] =
      .error Rez.RErr.attributeError :=
  c9_validate_version_attribute_error
    ⟨"http://repo/proj/trunk", fun _ => true, Rez.svn_version_attr⟩
    false none [Rez.VComp.num 1, Rez.VComp.num 0, Rez.VComp.num 0] rfl

/-- C10: whenever `SvnRezReleaseMode.get_tags` returns normally (the
derived tags URL exists and its listing is nonempty) it returns the
empty list — the listing is discarded before the extraction loop — and
consequently `get_last_tagged_version`, whenever it returns normally,
returns none (in particular never a value derived from a repository
tag). -/
theorem c10_svn_get_tags_returns_empty (st : Rez.SvnRepoState) (tagUrl : String)
    (hurl : Rez.svn_get_tag_url st.this_url none = .ok tagUrl)
    (hex : st.urlExists tagUrl = true)
    (hls : st.lsNames tagUrl ≠ [])
    (hbr : Rez.containsSub st.this_url "/branches/" = true →
      (Rez.parseVersion (Rez.lastSlashSegment st.this_url)).isSome) :
    Rez.svn_get_tags st = .ok [] ∧
      Rez.svn_get_last_tagged_version st = .ok none := by
  have h1 : Rez.svn_get_tags st = .ok [] := by
    rw [Rez.svn_get_tags, hurl]
    simp only [hex, Bool.not_true, Bool.false_eq_true, if_false, List.length_eq_zero, hls]
    rfl
  refine ⟨h1, ?_⟩
  rw [Rez.svn_get_last_tagged_version]
  rcases hbs : Rez.containsSub st.this_url "/branches/" with _ | _
  · simp only [hbs, Bool.false_eq_true, if_false, h1]
    rfl
  · rcases hpv : Rez.parseVersion (Rez.lastSlashSegment st.this_url) with _ | v
    · have := hbr hbs
      rw [hpv] at this
      cases this
    · simp only [hbs, if_true, hpv, h1]
      rfl

/-- Witness for C10: a trunk working copy whose tags URL exists and whose
listing holds the two real tags 1.0.0 and 2.0.0 — `get_tags` still
returns the empty list and the last tagged version is none. -/
theorem c10_svn_get_tags_returns_empty_witness :
    Rez.svn_get_tags ⟨"http://repo/proj/trunk", fun _ => true,
        fun _ => ["1.0.0", "2.0.0"]⟩ = .ok [] ∧
      Rez.svn_get_last_tagged_version ⟨"http://repo/proj/trunk", fun _ => true,
        fun _ => ["1.0.0", "2.0.0"]⟩ = .ok none :=
  c10_svn_get_tags_returns_empty
    ⟨"http://repo/proj/trunk", fun _ => true, fun _ => ["1.0.0", "2.0.0"]⟩
    "http://repo/proj/tags" rfl rfl (by decide) (by decide)

namespace Rez

/-! ### Lemmas about the per-variant loop and the pipeline trace -/

theorem runVariants_none_iff (ok : Nat → Bool) (ev : Nat → REvent) (msg : String) :
    ∀ is : List Nat, (runVariants ok ev msg is).2 = none ↔ ∀ i ∈ is, ok i = true := by
  intro is
  induction is with
  | nil => simp [runVariants]
  | cons i is ih =>
    rcases hoi : ok i with _ | _
    · simp [runVariants, hoi]
    · simp [runVariants, hoi, ih]

theorem runVariants_mem (ok : Nat → Bool) (ev : Nat → REvent) (msg : String) :
    ∀ (is : List Nat) (e : REvent), e ∈ (runVariants ok ev msg is).1 →
      ∃ i, i ∈ is ∧ e = ev i := by
  intro is
  induction is with
  | nil =>
    intro e he
    simp [runVariants] at he
  | cons i is ih =>
    intro e he
    rcases hoi : ok i with _ | _
    · rw [runVariants, if_neg (by simp [hoi])] at he
      simp at he
    · rw [runVariants, if_pos hoi] at he
      rcases List.mem_cons.1 he with h1 | h1
      · exact ⟨i, List.mem_cons_self _ _, h1⟩
      · obtain ⟨j, hj, hje⟩ := ih e h1
        exact ⟨j, List.mem_cons_of_mem _ hj, hje⟩

theorem runVariants_fst_of_all (ok : Nat → Bool) (ev : Nat → REvent) (msg : String) :
    ∀ is : List Nat, (∀ i ∈ is, ok i = true) →
      (runVariants ok ev msg is).1 = is.map ev := by
  intro is
  induction is with
  | nil => intro _; rfl
  | cons i is ih =>
    intro hall
    rw [runVariants, if_pos (hall i (List.mem_cons_self _ _))]
    simp only [List.map_cons]
    rw [ih (fun j hj => hall j (List.mem_cons_of_mem _ hj))]

theorem getLast?_append_triple (l : List REvent) (a b c : REvent) :
    (l ++ [a, b, c]).getLast? = some c := by
  rw [List.getLast?_append_cons]
  rfl

theorem pre_build_err_of_mismatch (env : ReleaseEnv) (c : String)
    (hc : env.uuidFileContents = some c) (hne : pyStrip c ≠ env.metadataUuid) :
    ∃ e, pre_build env = .error e := by
  rw [pre_build]
  rcases hm : env.metadataOk with _ | _
  · exact ⟨.releaseError "bad metadata", by simp [hm]⟩
  · rcases hr : env.releaseDirSet with _ | _
    · exact ⟨.releaseError "REZ_RELEASE_PACKAGES_PATH is not set.", by simp [hm, hr]⟩
    · have hcu : check_uuid env.uuidFileContents env.metadataUuid =
          .error (.releaseError "the uuid in the package.uuid file does not match this package uuid - you may have a package name clash. All package names must be unique.") := by
        rw [hc, check_uuid]
        simp [hne]
      simp [hm, hr, hcu]

theorem pre_build_ok_uuid_true (env : ReleaseEnv) (c : String)
    (hc : env.uuidFileContents = some c) :
    ∀ b, pre_build env = .ok b → b = true := by
  intro b hb
  rw [pre_build, hc] at hb
  rcases hm : env.metadataOk with _ | _ <;> rw [hm] at hb
  · simp at hb
  · rcases hr : env.releaseDirSet with _ | _ <;> rw [hr] at hb
    · simp at hb
    · rcases hcu : check_uuid (some c) env.metadataUuid with e | bb <;> rw [hcu] at hb
      · simp at hb
      · have hbb : bb = true := by
          rw [check_uuid] at hcu
          by_cases hne : pyStrip c ≠ env.metadataUuid
          · simp [hne] at hcu
          · simp [hne] at hcu
            rw [← hcu]
        subst hbb
        rcases h1 : env.repostateOk with _ | _ <;> rw [h1] at hb
        · simp at hb
        · rcases h2 : env.versionOk with _ | _ <;> rw [h2] at hb
          · simp at hb
          · rcases h3 : env.commitMsgOk with _ | _ <;> rw [h3] at hb
            · simp at hb
            · simp at hb
              rw [← hb]

theorem pre_build_ok_of_none (env : ReleaseEnv)
    (hc : env.uuidFileContents = none) (hm : env.metadataOk = true)
    (hr : env.releaseDirSet = true) (h1 : env.repostateOk = true)
    (h2 : env.versionOk = true) (h3 : env.commitMsgOk = true) :
    pre_build env = .ok false := by
  rw [pre_build, hc]
  have hcu : check_uuid none env.metadataUuid = .ok false := by
    rw [check_uuid]
    simp
  simp [hm, hr, hcu, h1, h2, h3]

end Rez

/-- C1: in every pipeline run, the tag-creation event occurs only after
every variant has been built and installed successfully: whenever the
release trace contains the tag creation, it is the final action of the
run, occurs exactly once, comes after the release-time metafile write,
and every variant was built and installed with a successful outcome. -/
theorem c1_tag_created_last_after_all_variants (env : Rez.ReleaseEnv)
    (h : Rez.REvent.createTag ∈ (Rez.releaseTrace env).1) :
    (Rez.releaseTrace env).1.getLast? = some Rez.REvent.createTag ∧
    (Rez.releaseTrace env).1.count Rez.REvent.createTag = 1 ∧
    Rez.REvent.writeTimeMetafile ∈ (Rez.releaseTrace env).1 ∧
    ∀ i, i < Rez.nVariants env →
      env.buildOk i = true ∧ Rez.REvent.buildVariant i ∈ (Rez.releaseTrace env).1 ∧
      env.installOk i = true ∧ Rez.REvent.installVariant i ∈ (Rez.releaseTrace env).1 := by
  have hbp1 : (Rez.buildPhase env).1 =
      (Rez.runVariants env.buildOk Rez.REvent.buildVariant "rez-release: build failed"
        (List.range (Rez.nVariants env))).1 := rfl
  have hbp2 : (Rez.buildPhase env).2 =
      (Rez.runVariants env.buildOk Rez.REvent.buildVariant "rez-release: build failed"
        (List.range (Rez.nVariants env))).2 := rfl
  have hip1 : (Rez.installPhase env true).1 = (Rez.installPhase env true).1 := rfl
  rcases hpb : Rez.pre_build env with e | uex
  · have hrel : Rez.releaseTrace env = ([], some e) := by
      simp only [Rez.releaseTrace, hpb]
    rw [hrel] at h
    simp at h
  · have hipA : (Rez.installPhase env uex).1 =
        (if uex then ([] : List Rez.REvent)
         else [Rez.REvent.mkFamilyDir, Rez.REvent.writeUuidFile env.metadataUuid]) ++
          (Rez.runVariants env.installOk Rez.REvent.installVariant Rez.installFailMsg
            (List.range (Rez.nVariants env))).1 := rfl
    have hipB : (Rez.installPhase env uex).2 =
        (Rez.runVariants env.installOk Rez.REvent.installVariant Rez.installFailMsg
          (List.range (Rez.nVariants env))).2 := rfl
    rcases hb2 : (Rez.buildPhase env).2 with _ | e
    · rcases hi2 : (Rez.installPhase env uex).2 with _ | e
      · -- all phases succeeded: the full trace
        have hrel : Rez.releaseTrace env =
            ((Rez.buildPhase env).1 ++ (Rez.installPhase env uex).1 ++
                (Rez.post_install env).1,
              (Rez.post_install env).2) := by
          simp only [Rez.releaseTrace, hpb, hb2, hi2]
        have hallb : ∀ i ∈ List.range (Rez.nVariants env), env.buildOk i = true :=
          (Rez.runVariants_none_iff _ _ _ _).1 (hbp2 ▸ hb2)
        have halli : ∀ i ∈ List.range (Rez.nVariants env), env.installOk i = true :=
          (Rez.runVariants_none_iff _ _ _ _).1 (hipB ▸ hi2)
        have hB1 : (Rez.buildPhase env).1 =
            (List.range (Rez.nVariants env)).map Rez.REvent.buildVariant := by
          rw [hbp1]
          exact Rez.runVariants_fst_of_all _ _ _ _ hallb
        have hI1 : (Rez.installPhase env uex).1 =
            (if uex then ([] : List Rez.REvent)
             else [Rez.REvent.mkFamilyDir, Rez.REvent.writeUuidFile env.metadataUuid]) ++
              (List.range (Rez.nVariants env)).map Rez.REvent.installVariant := by
          rw [hipA, Rez.runVariants_fst_of_all _ _ _ _ halli]
        have hpost : (Rez.post_install env).1 =
            [Rez.REvent.writeTimeMetafile, Rez.REvent.sendEmail, Rez.REvent.createTag] := rfl
        rw [hrel]
        dsimp only
        refine ⟨?_, ?_, ?_, ?_⟩
        · rw [hpost]
          exact Rez.getLast?_append_triple _ _ _ _
        · rw [hpost, List.count_append, List.count_append]
          have hcb : (Rez.buildPhase env).1.count Rez.REvent.createTag = 0 := by
            rw [List.count_eq_zero]
            intro hmem
            obtain ⟨i, -, hei⟩ := Rez.runVariants_mem _ _ _ _ _ (hbp1 ▸ hmem)
            cases hei
          have hci : (Rez.installPhase env uex).1.count Rez.REvent.createTag = 0 := by
            rw [List.count_eq_zero]
            intro hmem
            rw [hI1] at hmem
            rcases List.mem_append.1 hmem with hm1 | hm1
            · cases uex <;> simp at hm1
            · obtain ⟨i, -, hei⟩ := List.mem_map.1 hm1
              cases hei
          rw [hcb, hci]
          decide
        · refine List.mem_append_right _ ?_
          rw [hpost]
          simp
        · intro i hi
          have hir : i ∈ List.range (Rez.nVariants env) := List.mem_range.2 hi
          refine ⟨hallb i hir, ?_, halli i hir, ?_⟩
          · refine List.mem_append_left _ (List.mem_append_left _ ?_)
            rw [hB1]
            exact List.mem_map_of_mem _ hir
          · refine List.mem_append_left _ (List.mem_append_right _ ?_)
            rw [hI1]
            exact List.mem_append_right _ (List.mem_map_of_mem _ hir)
      · -- an install failed: no tag event can be in the trace
        have hrel : Rez.releaseTrace env =
            ((Rez.buildPhase env).1 ++ (Rez.installPhase env uex).1, some e) := by
          simp only [Rez.releaseTrace, hpb, hb2, hi2]
        rw [hrel] at h
        dsimp only at h
        rcases List.mem_append.1 h with hm1 | hm1
        · obtain ⟨i, -, hei⟩ := Rez.runVariants_mem _ _ _ _ _ (hbp1 ▸ hm1)
          cases hei
        · rw [hipA] at hm1
          rcases List.mem_append.1 hm1 with hm2 | hm2
          · cases uex <;> simp at hm2
          · obtain ⟨i, -, hei⟩ := Rez.runVariants_mem _ _ _ _ _ hm2
            cases hei
    · -- a build failed: no tag event can be in the trace
      have hrel : Rez.releaseTrace env = ((Rez.buildPhase env).1, some e) := by
        simp only [Rez.releaseTrace, hpb, hb2]
      rw [hrel] at h
      dsimp only at h
      obtain ⟨i, -, hei⟩ := Rez.runVariants_mem _ _ _ _ _ (hbp1 ▸ h)
      cases hei

/-- Witness for C1: a two-variant release in which everything succeeds;
the tag event is present, final and unique. -/
theorem c1_tag_created_last_after_all_variants_witness :
    (Rez.releaseTrace ⟨none, "u-1", 2, true, true, true, true, true,
        fun _ => true, fun _ => true, true⟩).1.getLast? = some Rez.REvent.createTag ∧
      (Rez.releaseTrace ⟨none, "u-1", 2, true, true, true, true, true,
        fun _ => true, fun _ => true, true⟩).1.count Rez.REvent.createTag = 1 :=
  ⟨(c1_tag_created_last_after_all_variants ⟨none, "u-1", 2, true, true, true, true, true,
      fun _ => true, fun _ => true, true⟩ (by decide)).1,
   (c1_tag_created_last_after_all_variants ⟨none, "u-1", 2, true, true, true, true, true,
      fun _ => true, fun _ => true, true⟩ (by decide)).2.1⟩

/-- C3: if the central `package.uuid` marker can be read and its stripped
contents differ from the metadata uuid, the release fails before any
build event; if no marker exists (first release), the uuid check raises
nothing and the install phase creates the family directory and writes
the marker exactly once; and when a readable marker already exists the
marker file is never written again. -/
theorem c3_uuid_collision_guard (env : Rez.ReleaseEnv) :
    (∀ c, env.uuidFileContents = some c → Rez.pyStrip c ≠ env.metadataUuid →
      (Rez.releaseTrace env).2.isSome = true ∧ (Rez.releaseTrace env).1 = []) ∧
    (env.uuidFileContents = none → env.metadataOk = true → env.releaseDirSet = true →
      env.repostateOk = true → env.versionOk = true → env.commitMsgOk = true →
      (∀ i, i < Rez.nVariants env → env.buildOk i = true) →
      Rez.REvent.mkFamilyDir ∈ (Rez.releaseTrace env).1 ∧
      (Rez.releaseTrace env).1.count (Rez.REvent.writeUuidFile env.metadataUuid) = 1) ∧
    (∀ c, env.uuidFileContents = some c →
      ∀ s, Rez.REvent.writeUuidFile s ∉ (Rez.releaseTrace env).1) := by
  have hbp1 : (Rez.buildPhase env).1 =
      (Rez.runVariants env.buildOk Rez.REvent.buildVariant "rez-release: build failed"
        (List.range (Rez.nVariants env))).1 := rfl
  have hbp2 : (Rez.buildPhase env).2 =
      (Rez.runVariants env.buildOk Rez.REvent.buildVariant "rez-release: build failed"
        (List.range (Rez.nVariants env))).2 := rfl
  refine ⟨?_, ?_, ?_⟩
  · -- readable marker with mismatching contents: abort with no events
    intro c hc hne
    obtain ⟨e, he⟩ := Rez.pre_build_err_of_mismatch env c hc hne
    have hrel : Rez.releaseTrace env = ([], some e) := by
      simp only [Rez.releaseTrace, he]
    rw [hrel]
    exact ⟨rfl, rfl⟩
  · -- no marker: the install phase writes it exactly once
    intro hc hm hr h1 h2 h3 hballs
    have hpb : Rez.pre_build env = .ok false :=
      Rez.pre_build_ok_of_none env hc hm hr h1 h2 h3
    have hallb : ∀ i ∈ List.range (Rez.nVariants env), env.buildOk i = true :=
      fun i hi => hballs i (List.mem_range.1 hi)
    have hb2 : (Rez.buildPhase env).2 = none := by
      rw [hbp2]
      exact (Rez.runVariants_none_iff _ _ _ _).2 hallb
    have hipA : (Rez.installPhase env false).1 =
        [Rez.REvent.mkFamilyDir, Rez.REvent.writeUuidFile env.metadataUuid] ++
          (Rez.runVariants env.installOk Rez.REvent.installVariant Rez.installFailMsg
            (List.range (Rez.nVariants env))).1 := rfl
    have hImem : Rez.REvent.mkFamilyDir ∈ (Rez.installPhase env false).1 := by
      rw [hipA]
      exact List.mem_append_left _ (by simp)
    have hBcount :
        (Rez.buildPhase env).1.count (Rez.REvent.writeUuidFile env.metadataUuid) = 0 := by
      rw [List.count_eq_zero]
      intro hmem
      obtain ⟨i, -, hei⟩ := Rez.runVariants_mem _ _ _ _ _ (hbp1 ▸ hmem)
      cases hei
    have hIcount :
        (Rez.installPhase env false).1.count (Rez.REvent.writeUuidFile env.metadataUuid) = 1 := by
      rw [hipA, List.count_append]
      have hrv :
          ((Rez.runVariants env.installOk Rez.REvent.installVariant Rez.installFailMsg
            (List.range (Rez.nVariants env))).1).count
              (Rez.REvent.writeUuidFile env.metadataUuid) = 0 := by
        rw [List.count_eq_zero]
        intro hmem
        obtain ⟨i, -, hei⟩ := Rez.runVariants_mem _ _ _ _ _ hmem
        cases hei
      rw [hrv]
      simp
    rcases hi2 : (Rez.installPhase env false).2 with _ | e
    · have hrel : Rez.releaseTrace env =
          ((Rez.buildPhase env).1 ++ (Rez.installPhase env false).1 ++
              (Rez.post_install env).1,
            (Rez.post_install env).2) := by
        simp only [Rez.releaseTrace, hpb, hb2, hi2]
      rw [hrel]
      dsimp only
      constructor
      · exact List.mem_append_left _ (List.mem_append_right _ hImem)
      · rw [List.count_append, List.count_append, hBcount, hIcount]
        have hfinal : (Rez.post_install env).1.count
            (Rez.REvent.writeUuidFile env.metadataUuid) = 0 := by
          rw [List.count_eq_zero]
          intro hmem
          simp [Rez.post_install] at hmem
        rw [hfinal]
    · have hrel : Rez.releaseTrace env =
          ((Rez.buildPhase env).1 ++ (Rez.installPhase env false).1, some e) := by
        simp only [Rez.releaseTrace, hpb, hb2, hi2]
      rw [hrel]
      dsimp only
      constructor
      · exact List.mem_append_right _ hImem
      · rw [List.count_append, hBcount, hIcount]
  · -- readable marker: the marker file is never written again
    intro c hc s
    rcases hpb : Rez.pre_build env with e | uex
    · have hrel : Rez.releaseTrace env = ([], some e) := by
        simp only [Rez.releaseTrace, hpb]
      rw [hrel]
      simp
    · have huex : uex = true := Rez.pre_build_ok_uuid_true env c hc uex hpb
      subst huex
      have hipA : (Rez.installPhase env true).1 =
          (Rez.runVariants env.installOk Rez.REvent.installVariant Rez.installFailMsg
            (List.range (Rez.nVariants env))).1 := rfl
      have hBnot : Rez.REvent.writeUuidFile s ∉ (Rez.buildPhase env).1 := by
        intro hmem
        obtain ⟨i, -, hei⟩ := Rez.runVariants_mem _ _ _ _ _ (hbp1 ▸ hmem)
        cases hei
      have hInot : Rez.REvent.writeUuidFile s ∉ (Rez.installPhase env true).1 := by
        intro hmem
        obtain ⟨i, -, hei⟩ := Rez.runVariants_mem _ _ _ _ _ (hipA ▸ hmem)
        cases hei
      rcases hb2 : (Rez.buildPhase env).2 with _ | e
      · rcases hi2 : (Rez.installPhase env true).2 with _ | e
        · have hrel : Rez.releaseTrace env =
              ((Rez.buildPhase env).1 ++ (Rez.installPhase env true).1 ++
                  (Rez.post_install env).1,
                (Rez.post_install env).2) := by
            simp only [Rez.releaseTrace, hpb, hb2, hi2]
          rw [hrel]
          dsimp only
          intro hmem
          rcases List.mem_append.1 hmem with hm1 | hm1
          · rcases List.mem_append.1 hm1 with hm2 | hm2
            · exact hBnot hm2
            · exact hInot hm2
          · simp [Rez.post_install] at hm1
        · have hrel : Rez.releaseTrace env =
              ((Rez.buildPhase env).1 ++ (Rez.installPhase env true).1, some e) := by
            simp only [Rez.releaseTrace, hpb, hb2, hi2]
          rw [hrel]
          dsimp only
          intro hmem
          rcases List.mem_append.1 hmem with hm1 | hm1
          · exact hBnot hm1
          · exact hInot hm1
      · have hrel : Rez.releaseTrace env = ((Rez.buildPhase env).1, some e) := by
          simp only [Rez.releaseTrace, hpb, hb2]
        rw [hrel]
        exact hBnot

/-- Witness for C3: a first release (no marker) of a one-variant package
writes the marker exactly once, and a release over an existing matching
marker never writes it. -/
theorem c3_uuid_collision_guard_witness :
    (Rez.releaseTrace ⟨none, "u-2", 1, true, true, true, true, true,
        fun _ => true, fun _ => true, true⟩).1.count
      (Rez.REvent.writeUuidFile "u-2") = 1 ∧
    Rez.REvent.writeUuidFile "u-2" ∉
      (Rez.releaseTrace ⟨some " u-2 ", "u-2", 1, true, true, true, true, true,
        fun _ => true, fun _ => true, true⟩).1 :=
  ⟨((c3_uuid_collision_guard ⟨none, "u-2", 1, true, true, true, true, true,
      fun _ => true, fun _ => true, true⟩).2.1 rfl rfl rfl rfl rfl rfl
      (fun _ _ => rfl)).2,
   (c3_uuid_collision_guard ⟨some " u-2 ", "u-2", 1, true, true, true, true, true,
      fun _ => true, fun _ => true, true⟩).2.2 " u-2 " rfl "u-2"⟩

namespace Rez.Git

/-- With distinct hashes, equal hashes force equal commits. -/
theorem hash_inj_of_nodup (repo : List Commit)
    (hnd : (repo.map (fun c => c.hash)).Nodup) :
    ∀ c ∈ repo, ∀ c2 ∈ repo, c.hash = c2.hash → c = c2 := by
  intro c hc c2 hc2 hh
  exact List.inj_on_of_nodup_map hnd hc hc2 hh

/-- With distinct hashes the per-hash detail query finds the commit. -/
theorem commitDetail_of_mem (repo : List Commit)
    (hnd : (repo.map (fun c => c.hash)).Nodup) (c : Commit) (hc : c ∈ repo) :
    commitDetail repo c.hash = detailRender c := by
  rcases hf : repo.find? (fun x => x.hash == c.hash) with _ | c2
  · exfalso
    have := List.find?_eq_none.1 hf c hc
    simp at this
  · have h1 : c2.hash = c.hash := by
      have := List.find?_some hf
      simpa using this
    have h2 : c2 ∈ repo := List.mem_of_find?_eq_some hf
    have h3 : c2 = c := hash_inj_of_nodup repo hnd c2 h2 c hc h1
    rw [commitDetail, hf, h3]

end Rez.Git

/-- C8 counterexample: with a previous revision carrying commit p and a
merge commit m at HEAD, `get_changelog` returns exactly the log of the
merge commit — merge commits are not excluded from the changelog (the
`git log` call in `get_changelog` passes no `--no-merges` flag). -/
theorem c8_counterexample :
    Rez.Git.get_changelog
        [⟨"m", true, "merge branch topic"⟩, ⟨"p", false, "previous release"⟩]
        (some [("commit", "p")]) =
      "commit m\n    merge branch topic" ∧
    (⟨"m", true, "merge branch topic"⟩ : Rez.Git.Commit).isMerge = true := by
  constructor <;> rfl

/-- C8 as amended: for a previous revision carrying a nonempty commit
hash, `get_changelog` covers exactly the commits between that commit and
HEAD including merge commits, while `get_commit_details` covers only
non-merge commits of that range (capped at the newest 100). -/
theorem c8_changelog_range_amended (repo : List Rez.Git.Commit)
    (d : List (String × String)) (h : String)
    (hlk : d.lookup "commit" = some h) (hne : h ≠ "")
    (hnd : (repo.map (fun c => c.hash)).Nodup) :
    (∀ c ∈ repo, (("commit " ++ c.hash) ∈ Rez.Git.get_changelog_lines repo (some d) ↔
      c ∈ Rez.Git.commitsAfter repo h)) ∧
    (∀ s ∈ Rez.Git.get_commit_details repo (some d), ∃ c,
      c ∈ Rez.Git.commitsAfter repo h ∧ c.isMerge = false ∧
        s = Rez.Git.detailRender c) := by
  have hrange : Rez.Git.commitsAfter repo h ⊆ repo :=
    (List.takeWhile_sublist _).subset
  have hlines : Rez.Git.get_changelog_lines repo (some d) =
      (Rez.Git.commitsAfter repo h).flatMap Rez.Git.renderCommit := by
    rw [Rez.Git.get_changelog_lines]
    simp only [hlk]
    rw [if_pos hne]
    rfl
  constructor
  · intro c hc
    rw [hlines]
    constructor
    · intro hmem
      obtain ⟨c2, hc2, hr⟩ := List.mem_flatMap.1 hmem
      have : "commit " ++ c.hash = "commit " ++ c2.hash ∨
          "commit " ++ c.hash = "    " ++ c2.subject := by
        simpa [Rez.Git.renderCommit] using hr
      rcases this with he | he
      · have hdata := congrArg String.data he
        rw [String.data_append, String.data_append] at hdata
        have hh : c.hash.data = c2.hash.data := List.append_cancel_left hdata
        have : c = c2 :=
          Rez.Git.hash_inj_of_nodup repo hnd c hc c2 (hrange hc2) (String.ext hh)
        rw [this]
        exact hc2
      · exfalso
        have h1 : ("commit " ++ c.hash).data.head? = some 'c' := by
          rw [String.data_append]
          rfl
        have h2 : ("    " ++ c2.subject).data.head? = some ' ' := by
          rw [String.data_append]
          rfl
        rw [he, h2] at h1
        cases h1
    · intro hmem
      exact List.mem_flatMap.2 ⟨c, hmem, by simp [Rez.Git.renderCommit]⟩
  · intro s hs
    have hdet : Rez.Git.get_commit_details repo (some d) =
        (Rez.Git.gitLogHashes repo h).map (Rez.Git.commitDetail repo) := by
      rw [Rez.Git.get_commit_details]
      simp only [Option.getD_some, hlk]
      rw [if_pos hne]
    rw [hdet] at hs
    obtain ⟨hh, hhmem, hseq⟩ := List.mem_map.1 hs
    rw [Rez.Git.gitLogHashes] at hhmem
    obtain ⟨c, hcmem, hch⟩ := List.mem_map.1 hhmem
    rw [List.mem_reverse] at hcmem
    have hcfil : c ∈ (Rez.Git.commitsAfter repo h).filter (fun x => !x.isMerge) :=
      List.take_subset _ _ hcmem
    have hcrange : c ∈ Rez.Git.commitsAfter repo h := List.mem_of_mem_filter hcfil
    have hcnm : c.isMerge = false := by
      have := List.of_mem_filter hcfil
      simpa using this
    refine ⟨c, hcrange, hcnm, ?_⟩
    rw [← hseq, ← hch]
    exact Rez.Git.commitDetail_of_mem repo hnd c (hrange hcrange)

/-- Witness for C8 (amended): a three-commit history (merge at HEAD, a
fix, the previous release): the fix appears in the changelog, and its
detail entry comes from a non-merge commit of the range. -/
theorem c8_changelog_range_amended_witness :
    ("commit c2" ∈ Rez.Git.get_changelog_lines
        [⟨"m", true, "merge"⟩, ⟨"c2", false, "fix bug"⟩, ⟨"p", false, "prev"⟩]
        (some [("commit", "p")])) ∧
      (∃ c, c ∈ Rez.Git.commitsAfter
          [⟨"m", true, "merge"⟩, ⟨"c2", false, "fix bug"⟩, ⟨"p", false, "prev"⟩] "p" ∧
        c.isMerge = false ∧ ("c2: fix bug" : String) = Rez.Git.detailRender c) :=
  ⟨((c8_changelog_range_amended
      [⟨"m", true, "merge"⟩, ⟨"c2", false, "fix bug"⟩, ⟨"p", false, "prev"⟩]
      [("commit", "p")] "p" (by decide) (by decide) (by decide)).1
      ⟨"c2", false, "fix bug"⟩ (by decide)).2 (by decide),
   (c8_changelog_range_amended
      [⟨"m", true, "merge"⟩, ⟨"c2", false, "fix bug"⟩, ⟨"p", false, "prev"⟩]
      [("commit", "p")] "p" (by decide) (by decide) (by decide)).2
      "c2: fix bug" (by decide)⟩

namespace Rez.Git

/-! ### Lemmas about the status-line parsing of the git backend -/

theorem bgAux_append_no_open (l : List Char) (hl : ∀ c ∈ l, c ≠ '[') :
    ∀ m : List Char, bgAux (l ++ m) none = bgAux m none := by
  induction l with
  | nil => intro m; rfl
  | cons c rest ih =>
    intro m
    rw [List.cons_append, bgAux,
      if_neg (hl c (List.mem_cons_self _ _))]
    exact ih (fun x hx => hl x (List.mem_cons_of_mem _ hx)) m

theorem bgAux_skip_char (c : Char) (hc : c ≠ '[') (rest : List Char) :
    bgAux (c :: rest) none = bgAux rest none := by
  rw [bgAux, if_neg hc]

theorem bgAux_open (rest : List Char) :
    bgAux ('[' :: rest) none = bgAux rest (some []) := by
  rw [bgAux, if_pos rfl]

theorem bgAux_no_open (l : List Char) (hl : ∀ c ∈ l, c ≠ '[') :
    bgAux l none = [] := by
  have := bgAux_append_no_open l hl []
  rwa [List.append_nil] at this

theorem bgAux_capture (inner : List Char) :
    ∀ (acc rest : List Char), (inner ≠ [] ∨ acc ≠ []) →
      (∀ c ∈ inner, c ≠ ']') →
      bgAux (inner ++ ']' :: rest) (some acc) =
        (acc.reverse ++ inner) :: bgAux rest none := by
  induction inner with
  | nil =>
    intro acc rest hne _
    have hacc : acc ≠ [] := by
      rcases hne with h | h
      · exact absurd rfl h
      · exact h
    rw [List.nil_append, bgAux, if_pos rfl,
      if_neg (by simpa [List.isEmpty_iff] using hacc)]
    simp
  | cons c inner ih =>
    intro acc rest _ hin
    rw [List.cons_append, bgAux,
      if_neg (hin c (List.mem_cons_self _ _))]
    rw [ih (c :: acc) rest (Or.inr (by simp))
      (fun x hx => hin x (List.mem_cons_of_mem _ hx))]
    simp

theorem takeWhile_all_true (p : Char → Bool) :
    ∀ l : List Char, (∀ c ∈ l, p c = true) → l.takeWhile p = l := by
  intro l
  induction l with
  | nil => intro _; rfl
  | cons c rest ih =>
    intro hall
    rw [List.takeWhile_cons, if_pos (hall c (List.mem_cons_self _ _))]
    rw [ih (fun x hx => hall x (List.mem_cons_of_mem _ hx))]

theorem takeWhile_until (p : Char → Bool) (x : Char) (hx : p x = false) :
    ∀ (l rest : List Char), (∀ c ∈ l, p c = true) →
      (l ++ x :: rest).takeWhile p = l := by
  intro l
  induction l with
  | nil =>
    intro rest _
    rw [List.nil_append, List.takeWhile_cons, if_neg (by simp [hx])]
  | cons c l ih =>
    intro rest hall
    rw [List.cons_append, List.takeWhile_cons,
      if_pos (hall c (List.mem_cons_self _ _))]
    rw [ih rest (fun y hy => hall y (List.mem_cons_of_mem _ hy))]

theorem splitWsAux_token (l : List Char) :
    ∀ acc : List Char, (l ≠ [] ∨ acc ≠ []) →
      (∀ c ∈ l, c.isWhitespace = false) →
      splitWsAux l acc = [acc.reverse ++ l] := by
  induction l with
  | nil =>
    intro acc hne _
    have hacc : acc ≠ [] := by
      rcases hne with h | h
      · exact absurd rfl h
      · exact h
    rw [splitWsAux, if_neg (by simpa [List.isEmpty_iff] using hacc)]
    simp
  | cons c l ih =>
    intro acc _ hall
    rw [splitWsAux, if_neg (by simp [hall c (List.mem_cons_self _ _)])]
    rw [ih (c :: acc) (Or.inr (by simp))
      (fun x hx => hall x (List.mem_cons_of_mem _ hx))]
    simp

end Rez.Git

namespace Rez.Git

theorem digit_char_facts (c : Char) (h : c.isDigit = true) :
    c ≠ '[' ∧ c ≠ ']' ∧ c ≠ ',' ∧ c.isWhitespace = false := by
  refine ⟨?_, ?_, ?_, ?_⟩
  · rintro rfl
    exact absurd h (by decide)
  · rintro rfl
    exact absurd h (by decide)
  · rintro rfl
    exact absurd h (by decide)
  · rcases hw : c.isWhitespace with _ | _
    · rfl
    · exfalso
      have hw' := hw
      simp [Char.isWhitespace] at hw'
      rcases hw' with ((rfl | rfl) | rfl) | rfl <;> exact absurd h (by decide)

/-- The facts needed about a digit string occurring in a status line. -/
theorem digit_str_facts (s : String) (hd : s.data.all Char.isDigit = true) :
    (∀ c ∈ s.data, c ≠ '[') ∧ (∀ c ∈ s.data, c ≠ ']') ∧
      (∀ c ∈ s.data, c ≠ ',') ∧ (∀ c ∈ s.data, c.isWhitespace = false) := by
  have h := List.all_eq_true.1 hd
  exact ⟨fun c hc => (digit_char_facts c (h c hc)).1,
    fun c hc => (digit_char_facts c (h c hc)).2.1,
    fun c hc => (digit_char_facts c (h c hc)).2.2.1,
    fun c hc => (digit_char_facts c (h c hc)).2.2.2⟩

theorem parseNatDigits_of_digits (l : List Char) (h1 : l ≠ [])
    (h2 : l.all Char.isDigit = true) :
    Rez.parseNatDigits l = some (Rez.digitsVal l) := by
  rw [Rez.parseNatDigits, if_neg (by simpa [List.isEmpty_iff] using h1), if_pos h2]

theorem splitWs_ahead (sa : List Char) (h1 : sa ≠ [])
    (h2 : ∀ c ∈ sa, c.isWhitespace = false) :
    splitWs ('a' :: 'h' :: 'e' :: 'a' :: 'd' :: ' ' :: sa) =
      [['a', 'h', 'e', 'a', 'd'], sa] := by
  rw [splitWs]
  rw [splitWsAux, if_neg (by decide)]
  rw [splitWsAux, if_neg (by decide)]
  rw [splitWsAux, if_neg (by decide)]
  rw [splitWsAux, if_neg (by decide)]
  rw [splitWsAux, if_neg (by decide)]
  rw [splitWsAux, if_pos (by decide), if_neg (by decide)]
  rw [splitWsAux_token sa [] (Or.inl h1) h2]
  rfl

theorem splitWs_behind (sb : List Char) (h1 : sb ≠ [])
    (h2 : ∀ c ∈ sb, c.isWhitespace = false) :
    splitWs ('b' :: 'e' :: 'h' :: 'i' :: 'n' :: 'd' :: ' ' :: sb) =
      [['b', 'e', 'h', 'i', 'n', 'd'], sb] := by
  rw [splitWs]
  rw [splitWsAux, if_neg (by decide)]
  rw [splitWsAux, if_neg (by decide)]
  rw [splitWsAux, if_neg (by decide)]
  rw [splitWsAux, if_neg (by decide)]
  rw [splitWsAux, if_neg (by decide)]
  rw [splitWsAux, if_neg (by decide)]
  rw [splitWsAux, if_pos (by decide), if_neg (by decide)]
  rw [splitWsAux_token sb [] (Or.inl h1) h2]
  rfl

end Rez.Git

namespace Rez.Git

theorem get_relative_synced (bp : String) (hbp : ∀ c ∈ bp.data, c ≠ '[') :
    get_relative_to_remote (mkStatusLine bp RemoteRel.synced) = .ok 0 := by
  have hdata : (mkStatusLine bp RemoteRel.synced).data = bp.data := by
    show (bp ++ "").data = _
    rw [String.data_append]
    simp
  have htoks : bracketGroups (mkStatusLine bp RemoteRel.synced) = [] := by
    rw [bracketGroups, hdata]
    exact bgAux_no_open bp.data hbp
  simp [get_relative_to_remote, htoks]

theorem get_relative_ahead (bp sa : String) (hbp : ∀ c ∈ bp.data, c ≠ '[')
    (h1 : sa.data ≠ []) (h2 : sa.data.all Char.isDigit = true) :
    get_relative_to_remote (mkStatusLine bp (RemoteRel.aheadBy sa)) =
      .ok ((Rez.digitsVal sa.data : Int)) := by
  obtain ⟨hA, hB, hC, hD⟩ := digit_str_facts sa h2
  have hdata : (mkStatusLine bp (RemoteRel.aheadBy sa)).data =
      bp.data ++ ' ' :: '[' ::
        (('a' :: 'h' :: 'e' :: 'a' :: 'd' :: ' ' :: sa.data) ++ (']' :: [])) := by
    show (bp ++ (" [ahead " ++ sa ++ "]")).data = _
    rw [String.data_append, String.data_append, String.data_append]
    have e1 : (" [ahead " : String).data = [' ', '[', 'a', 'h', 'e', 'a', 'd', ' '] := rfl
    have e2 : ("]" : String).data = [']'] := rfl
    rw [e1, e2]
    simp
  have htoks : bracketGroups (mkStatusLine bp (RemoteRel.aheadBy sa)) =
      [('a' :: 'h' :: 'e' :: 'a' :: 'd' :: ' ' :: sa.data)] := by
    rw [bracketGroups, hdata]
    rw [bgAux_append_no_open bp.data hbp]
    rw [bgAux_skip_char ' ' (by decide)]
    rw [bgAux_open]
    rw [bgAux_capture _ [] [] (Or.inl (by simp))
      (by
        simp only [List.forall_mem_cons]
        exact ⟨by decide, by decide, by decide, by decide, by decide, by decide, hB⟩)]
    simp [bgAux]
  have hallc : ∀ c ∈ ('a' :: 'h' :: 'e' :: 'a' :: 'd' :: ' ' :: sa.data),
      (decide (c ≠ ',')) = true := by
    simp only [List.forall_mem_cons]
    refine ⟨by decide, by decide, by decide, by decide, by decide, by decide, ?_⟩
    intro c hc
    simpa using hC c hc
  simp only [get_relative_to_remote, htoks, List.getLast?_singleton]
  rw [takeWhile_all_true _ _ hallc]
  rw [splitWs_ahead sa.data h1 hD]
  simp [parseNatDigits_of_digits sa.data h1 h2]

end Rez.Git

namespace Rez.Git

theorem get_relative_behind (bp sb : String) (hbp : ∀ c ∈ bp.data, c ≠ '[')
    (h1 : sb.data ≠ []) (h2 : sb.data.all Char.isDigit = true) :
    get_relative_to_remote (mkStatusLine bp (RemoteRel.behindBy sb)) =
      .ok (-(Rez.digitsVal sb.data : Int)) := by
  obtain ⟨hA, hB, hC, hD⟩ := digit_str_facts sb h2
  have hdata : (mkStatusLine bp (RemoteRel.behindBy sb)).data =
      bp.data ++ ' ' :: '[' ::
        (('b' :: 'e' :: 'h' :: 'i' :: 'n' :: 'd' :: ' ' :: sb.data) ++ (']' :: [])) := by
    show (bp ++ (" [behind " ++ sb ++ "]")).data = _
    rw [String.data_append, String.data_append, String.data_append]
    have e1 : (" [behind " : String).data =
      [' ', '[', 'b', 'e', 'h', 'i', 'n', 'd', ' '] := rfl
    have e2 : ("]" : String).data = [']'] := rfl
    rw [e1, e2]
    simp
  have htoks : bracketGroups (mkStatusLine bp (RemoteRel.behindBy sb)) =
      [('b' :: 'e' :: 'h' :: 'i' :: 'n' :: 'd' :: ' ' :: sb.data)] := by
    rw [bracketGroups, hdata]
    rw [bgAux_append_no_open bp.data hbp]
    rw [bgAux_skip_char ' ' (by decide)]
    rw [bgAux_open]
    rw [bgAux_capture _ [] [] (Or.inl (by simp))
      (by
        simp only [List.forall_mem_cons]
        exact ⟨by decide, by decide, by decide, by decide, by decide, by decide,
          by decide, hB⟩)]
    simp [bgAux]
  have hallc : ∀ c ∈ ('b' :: 'e' :: 'h' :: 'i' :: 'n' :: 'd' :: ' ' :: sb.data),
      (decide (c ≠ ',')) = true := by
    simp only [List.forall_mem_cons]
    refine ⟨by decide, by decide, by decide, by decide, by decide, by decide,
      by decide, ?_⟩
    intro c hc
    simpa using hC c hc
  simp only [get_relative_to_remote, htoks, List.getLast?_singleton]
  rw [takeWhile_all_true _ _ hallc]
  rw [splitWs_behind sb.data h1 hD]
  simp [parseNatDigits_of_digits sb.data h1 h2]

theorem get_relative_diverged (bp sa sb : String) (hbp : ∀ c ∈ bp.data, c ≠ '[')
    (ha1 : sa.data ≠ []) (ha2 : sa.data.all Char.isDigit = true)
    (_hb1 : sb.data ≠ []) (hb2 : sb.data.all Char.isDigit = true) :
    get_relative_to_remote (mkStatusLine bp (RemoteRel.diverged sa sb)) =
      .ok ((Rez.digitsVal sa.data : Int)) := by
  obtain ⟨haA, haB, haC, haD⟩ := digit_str_facts sa ha2
  obtain ⟨hbA, hbB, hbC, hbD⟩ := digit_str_facts sb hb2
  have hdata : (mkStatusLine bp (RemoteRel.diverged sa sb)).data =
      bp.data ++ ' ' :: '[' ::
        (('a' :: 'h' :: 'e' :: 'a' :: 'd' :: ' ' ::
          (sa.data ++ (',' :: ' ' :: 'b' :: 'e' :: 'h' :: 'i' :: 'n' :: 'd' :: ' ' ::
            sb.data))) ++ (']' :: [])) := by
    show (bp ++ (" [ahead " ++ sa ++ ", behind " ++ sb ++ "]")).data = _
    rw [String.data_append, String.data_append, String.data_append,
      String.data_append, String.data_append]
    have e1 : (" [ahead " : String).data = [' ', '[', 'a', 'h', 'e', 'a', 'd', ' '] := rfl
    have e2 : ((", behind " : String)).data =
      [',', ' ', 'b', 'e', 'h', 'i', 'n', 'd', ' '] := rfl
    have e3 : ("]" : String).data = [']'] := rfl
    rw [e1, e2, e3]
    simp
  have htoks : bracketGroups (mkStatusLine bp (RemoteRel.diverged sa sb)) =
      [('a' :: 'h' :: 'e' :: 'a' :: 'd' :: ' ' ::
        (sa.data ++ (',' :: ' ' :: 'b' :: 'e' :: 'h' :: 'i' :: 'n' :: 'd' :: ' ' ::
          sb.data)))] := by
    rw [bracketGroups, hdata]
    rw [bgAux_append_no_open bp.data hbp]
    rw [bgAux_skip_char ' ' (by decide)]
    rw [bgAux_open]
    rw [bgAux_capture _ [] [] (Or.inl (by simp))
      (by
        simp only [List.forall_mem_cons, List.forall_mem_append]
        exact ⟨by decide, by decide, by decide, by decide, by decide, by decide,
          ⟨haB, by decide, by decide, by decide, by decide, by decide, by decide,
            by decide, by decide, by decide, hbB⟩⟩)]
    simp [bgAux]
  have hre : ('a' :: 'h' :: 'e' :: 'a' :: 'd' :: ' ' ::
      (sa.data ++ (',' :: ' ' :: 'b' :: 'e' :: 'h' :: 'i' :: 'n' :: 'd' :: ' ' ::
        sb.data))) =
      (('a' :: 'h' :: 'e' :: 'a' :: 'd' :: ' ' :: sa.data) ++
        (',' :: (' ' :: 'b' :: 'e' :: 'h' :: 'i' :: 'n' :: 'd' :: ' ' :: sb.data))) := by
    simp
  have hallc : ∀ c ∈ ('a' :: 'h' :: 'e' :: 'a' :: 'd' :: ' ' :: sa.data),
      (decide (c ≠ ',')) = true := by
    simp only [List.forall_mem_cons]
    refine ⟨by decide, by decide, by decide, by decide, by decide, by decide, ?_⟩
    intro c hc
    simpa using haC c hc
  simp only [get_relative_to_remote, htoks, List.getLast?_singleton]
  rw [hre]
  rw [takeWhile_until _ ',' (by decide) _ _ hallc]
  rw [splitWs_ahead sa.data ha1 haD]
  simp [parseNatDigits_of_digits sa.data ha1 ha2]

end Rez.Git

/-- C6: when a tracking remote exists and the repository passes the
earlier checks, `validate_repostate` issues the remote update and then
raises an error exactly when the local branch's distance to its tracking
branch is nonzero, reporting the absolute distance and the direction
(ahead of / behind); when the branch is simultaneously ahead and behind,
the reported count is the ahead count. -/
theorem c6_validate_repostate_remote (st : Rez.Git.GitState) (bp : String)
    (r : Rez.Git.RemoteRel) (remote rb : String)
    (hu : st.untracked = []) (hp : st.porcelain = [])
    (ht : st.tracking = some (remote, rb))
    (hrb : st.releasableBranches = [])
    (hbp : ∀ c ∈ bp.data, c ≠ '[')
    (hline : st.statusLine = Rez.Git.mkStatusLine bp r)
    (hwf : Rez.Git.RelWf r) :
    Rez.Git.validate_repostate st =
      ([Rez.Git.GitCmd.remoteUpdate remote], Rez.Git.relOutcome r remote rb) := by
  rw [Rez.Git.validate_repostate]
  rw [if_neg (by simp [Rez.Git.listEqStr])]
  rw [if_neg (by simp [hu])]
  rw [if_neg (by simp [hp])]
  rw [if_neg (by simp [ht])]
  rw [if_neg (by simp [hrb])]
  rw [ht, hline]
  rcases r with _ | sa | sb | ⟨sa, sb⟩
  · rw [Rez.Git.get_relative_synced bp hbp]
    simp [Rez.Git.relOutcome]
  · obtain ⟨h1, h2, h3⟩ := hwf
    rw [Rez.Git.get_relative_ahead bp sa hbp h1 h2]
    have hk1 : ((Rez.digitsVal sa.data : Int)) ≠ 0 := by exact_mod_cast h3.ne'
    have hk2 : (0 : Int) < (Rez.digitsVal sa.data : Int) := by exact_mod_cast h3
    simp [Rez.Git.relOutcome, hk1, hk2]
  · obtain ⟨h1, h2, h3⟩ := hwf
    rw [Rez.Git.get_relative_behind bp sb hbp h1 h2]
    have hk1 : (-(Rez.digitsVal sb.data : Int)) ≠ 0 := by
      simp
      exact_mod_cast h3.ne'
    have hk2 : ¬((0 : Int) < -(Rez.digitsVal sb.data : Int)) := by
      simp
    simp [Rez.Git.relOutcome, hk1, hk2]
  · obtain ⟨⟨h1, h2, h3⟩, hb1', hb2', -⟩ := hwf
    rw [Rez.Git.get_relative_diverged bp sa sb hbp h1 h2 hb1' hb2']
    have hk1 : ((Rez.digitsVal sa.data : Int)) ≠ 0 := by exact_mod_cast h3.ne'
    have hk2 : (0 : Int) < (Rez.digitsVal sa.data : Int) := by exact_mod_cast h3
    simp [Rez.Git.relOutcome, hk1, hk2]

/-- Witness for C6: a clean repository on master tracking origin/master,
2 commits ahead and 3 behind — validation updates the remote and rejects
reporting the ahead count of 2. -/
theorem c6_validate_repostate_remote_witness :
    Rez.Git.validate_repostate
      ⟨["false"], [], [], [], some ("origin", "master"), false, [], "master",
        fun _ _ => false, "## master...origin/master [ahead 2, behind 3]"⟩ =
      ([Rez.Git.GitCmd.remoteUpdate "origin"],
        some (Rez.Git.GitErr.vcsError
          "Could not release: 2 commits ahead of origin/master.")) :=
  (c6_validate_repostate_remote
      ⟨["false"], [], [], [], some ("origin", "master"), false, [], "master",
        fun _ _ => false, "## master...origin/master [ahead 2, behind 3]"⟩
      "## master...origin/master" (Rez.Git.RemoteRel.diverged "2" "3") "origin" "master"
      rfl rfl rfl rfl (by decide) (by decide)
      ⟨⟨by decide, by decide, by decide⟩, by decide, by decide, by decide⟩).trans
    (by decide)
